import Mathlib

/-!
Verification of the viewManager document/UI-tree engine (viewManager.cpp).

The development shallowly embeds the engine's data model and operations:

* colour-name resolution (`colorNF`, the static colour table),
* string-to-enumeration translation (`strToEnum` and the attribute
  constructors built on it),
* the element tree (`appendChild` / `insertBefore` / `insertAfter` /
  `removeChild` / `replaceChild`), the global element registry and the
  string id index (`updateIndexBy`, `hasElement`, `query`),
* the per-element event-listener registry
  (`addListener` / `removeListener`),
* the markup parser (`ingestMarkup`: tokenizer plus tree-building phase).

Elements are identified by numeric handles (standing for the C++ object
addresses).  The link heap is a total function from handles to node
records, mirroring raw pointers: erasing an element from the registry
does not clear its record, exactly as freeing the C++ object leaves
dangling pointers behind.
-/

namespace ViewManager

/-- Characters treated as whitespace by the C++ `\s` regex class. -/
def isSpaceCh (c : Char) : Bool :=
  c = ' ' || c = '\t' || c = '\n' || c = '\r' || c = '\x0b' || c = '\x0c'

/-- Normalisation used by `colorNF::colorIndex` and `strToEnum`:
remove all whitespace and lower-case the remainder. -/
def normalizeKey (s : String) : String :=
  String.mk ((s.data.filter (fun c => ¬ isSpaceCh c)).map Char.toLower)

/-! ## Colour resolution (`colorNF`) -/

/-- The static colour-name table `colorNF::colorFactory`, transcribed from
the source (including its irregular keys such as `burlyWood` and
`lightdalmon`).  Values are 24-bit RGB. -/
def colorFactory : List (String × Nat) := [
  ("aliceblue", 0xF0F8FF),      ("antiquewhite", 0xFAEBD7),   ("aqua", 0x00FFFF),
  ("aquamarine", 0x7FFFD4),     ("azure", 0xF0FFFF),          ("beige", 0xF5F5DC),
  ("bisque", 0xFFE4C4),         ("black", 0x000000),          ("blanchedalmond", 0xFFEBCD),
  ("blue", 0x0000FF),           ("blueviolet", 0x8A2BE2),     ("brown", 0xA52A2A),
  ("burlyWood", 0xDEB887),      ("cadetblue", 0x5F9EA0),      ("chartreuse", 0x7FFF00),
  ("chocolate", 0xD2691E),      ("coral", 0xFF7F50),          ("cornflowerblue", 0x6495ED),
  ("cornsilk", 0xFFF8DC),       ("crimson", 0xDC143C),        ("cyan", 0x00FFFF),
  ("darkblue", 0x00008B),       ("darkcyan", 0x008B8B),       ("darkgoldenrod", 0xB8860B),
  ("darkgray", 0xA9A9A9),       ("darkgrey", 0xA9A9A9),       ("darkgreen", 0x006400),
  ("darkkhaki", 0xBDB76B),      ("darkmagenta", 0x8B008B),    ("darkolivegreen", 0x556B2F),
  ("darkorange", 0xFF8C00),     ("darkorchid", 0x9932CC),     ("darkred", 0x8B0000),
  ("darksalmon", 0xE9967A),     ("darkseagreen", 0x8FBC8F),   ("darkslateblue", 0x483D8B),
  ("darkslategray", 0x2F4F4F),  ("darkslategrey", 0x2F4F4F),  ("darkturquoise", 0x00CED1),
  ("darkviolet", 0x9400D3),     ("deeppink", 0xFF1493),       ("deepskyblue", 0x00BFFF),
  ("dimgray", 0x696969),        ("dimgrey", 0x696969),        ("dodgerblue", 0x1E90FF),
  ("firebrick", 0xB22222),      ("floralwhite", 0xFFFAF0),    ("forestgreen", 0x228B22),
  ("fuchsia", 0xFF00FF),        ("gainsboro", 0xDCDCDC),      ("ghostwhite", 0xF8F8FF),
  ("gold", 0xFFD700),           ("goldenrod", 0xDAA520),      ("gray", 0x808080),
  ("grey", 0x808080),           ("green", 0x008000),          ("greenyellow", 0xADFF2F),
  ("honeydew", 0xF0FFF0),       ("hotpink", 0xFF69B4),        ("indianred", 0xCD5C5C),
  ("indigo", 0x4B0082),         ("ivory", 0xFFFFF0),          ("khaki", 0xF0E68C),
  ("lavender", 0xE6E6FA),       ("lavenderblush", 0xFFF0F5),  ("lawngreen", 0x7CFC00),
  ("lemonchiffon", 0xFFFACD),   ("lightblue", 0xADD8E6),      ("lightcoral", 0xF08080),
  ("lightcyan", 0xE0FFFF),      ("lightgoldenrodyellow", 0xFAFAD2),
  ("lightgray", 0xD3D3D3),      ("lightgrey", 0xD3D3D3),      ("lightgreen", 0x90EE90),
  ("lightpink", 0xFFB6C1),      ("lightdalmon", 0xFFA07A),    ("lightseagreen", 0x20B2AA),
  ("lightskyblue", 0x87CEFA),   ("lightslategray", 0x778899), ("lightslategrey", 0x778899),
  ("lightsteelblue", 0xB0C4DE), ("lightyellow", 0xFFFFE0),    ("lime", 0x00FF00),
  ("limegreen", 0x32CD32),      ("linen", 0xFAF0E6),          ("magenta", 0xFF00FF),
  ("maroon", 0x800000),         ("mediumaquamarine", 0x66CDAA),
  ("mediumblue", 0x0000CD),     ("mediumorchid", 0xBA55D3),   ("mediumpurple", 0x9370DB),
  ("mediumseagreen", 0x3CB371), ("mediumslateblue", 0x7B68EE), ("mediumspringgreen", 0x00FA9A),
  ("mediumturquoise", 0x48D1CC), ("mediumvioletred", 0xC71585), ("midnightblue", 0x191970),
  ("mintcream", 0xF5FFFA),      ("mistyrose", 0xFFE4E1),      ("moccasin", 0xFFE4B5),
  ("navajowhite", 0xFFDEAD),    ("navy", 0x000080),           ("oldlace", 0xFDF5E6),
  ("olive", 0x808000),          ("olivedrab", 0x6B8E23),      ("orange", 0xFFA500),
  ("orangered", 0xFF4500),      ("orchid", 0xDA70D6),         ("palegoldenrod", 0xEEE8AA),
  ("palegreen", 0x98FB98),      ("paleturquoise", 0xAFEEEE),  ("palevioletred", 0xDB7093),
  ("papayawhip", 0xFFEFD5),     ("peachpuff", 0xFFDAB9),      ("peru", 0xCD853F),
  ("pink", 0xFFC0CB),           ("plum", 0xDDA0DD),           ("powderblue", 0xB0E0E6),
  ("purple", 0x800080),         ("rebeccapurple", 0x663399),  ("red", 0xFF0000),
  ("rosybrown", 0xBC8F8F),      ("royalblue", 0x4169E1),      ("saddlebrown", 0x8B4513),
  ("salmon", 0xFA8072),         ("sandybrown", 0xF4A460),     ("seagreen", 0x2E8B57),
  ("seashell", 0xFFF5EE),       ("sienna", 0xA0522D),         ("silver", 0xC0C0C0),
  ("skyblue", 0x87CEEB),        ("slateblue", 0x6A5ACD),      ("slategray", 0x708090),
  ("slategrey", 0x708090),      ("snow", 0xFFFAFA),           ("springgreen", 0x00FF7F),
  ("steelblue", 0x4682B4),      ("tan", 0xD2B48C),            ("teal", 0x008080),
  ("thistle", 0xD8BFD8),        ("tomato", 0xFF6347),         ("turquoise", 0x40E0D0),
  ("violet", 0xEE82EE),         ("wheat", 0xF5DEB3),          ("white", 0xFFFFFF),
  ("whitesmoke", 0xF5F5F5),     ("yellow", 0xFFFF00),         ("yellowgreen", 0x9ACD32)]

/-- `colorNF::colorIndex`: normalise the name (strip whitespace,
lower-case) and look it up in the table.  `none` models the end
iterator. -/
def colorIndexFind (colorName : String) : Option Nat :=
  (colorFactory.find? (fun e => e.1 = normalizeKey colorName)).map (·.2)

/-- The channel extraction performed by every `colorNF` constructor on the
looked-up value `color`:
`value[0] = (color & 0xFF000000) >> 24`, `value[1] = (color & 0x00FF0000) >> 16`,
`value[2] = (color & 0x0000FF00) >> 8`, `value[3] = 1.0` (modelled as `1`).
Note the masks start one byte too high for a 24-bit RGB table entry. -/
def colorChannels (color : Nat) : Nat × Nat × Nat × Nat :=
  ((color &&& 0xFF000000) >>> 24,
   (color &&& 0x00FF0000) >>> 16,
   (color &&& 0x0000FF00) >>> 8,
   1)

/-- `colorNF::colorNF(const string&)`: look the name up; an unmatched name
leaves `color = 0`; then extract the channels. -/
def colorNFofName (sOption : String) : Nat × Nat × Nat × Nat :=
  colorChannels ((colorIndexFind sOption).getD 0)

/-! ## `strToEnum` and the enumeration-valued attribute constructors -/

/-- The value `ret` computed inside `strToEnum`: normalise the option
string and look it up in the supplied map; `none` models the
`std::invalid_argument` throw for unmatched keys.  The C++ function
stores the hit in a local `ret` but reaches the end of the non-void
function without a `return` statement, so the value the caller receives
is undefined; this definition captures the value the function computes
and was evidently meant to return. -/
def strToEnumRet (optionMap : List (String × Nat)) (sOption : String) : Option Nat :=
  (optionMap.find? (fun e => e.1 = normalizeKey sOption)).map (·.2)

/-- `display`'s enumeration map (codes stand for the `optionEnum`
constants `in_line`, `block`, `none` of the header). -/
def displayEnumMap : List (String × Nat) := [("inline", 0), ("block", 1), ("none", 2)]

/-- `position`'s enumeration map (`absolute`, `relative`). -/
def positionEnumMap : List (String × Nat) := [("absolute", 0), ("relative", 1)]

/-- `textAlignment`'s enumeration map (`left`, `center`, `right`, `justified`). -/
def textAlignmentEnumMap : List (String × Nat) :=
  [("left", 0), ("center", 1), ("right", 2), ("justified", 3)]

/-- `borderStyle`'s enumeration map. -/
def borderStyleEnumMap : List (String × Nat) :=
  [("none", 0), ("dotted", 1), ("dashed", 2), ("solid", 3), ("doubled", 4),
   ("groove", 5), ("ridge", 6), ("inset", 7), ("outset", 8)]

/-- `listStyleType`'s enumeration map. -/
def listStyleTypeEnumMap : List (String × Nat) :=
  [("none", 0), ("disc", 1), ("circle", 2), ("square", 3), ("decimal", 4),
   ("alpha", 5), ("greek", 6), ("latin", 7), ("roman", 8)]

/-! ## Event-listener registry (`addListener` / `removeListener`) -/

/-- The recognised event categories (`eventType`). -/
inductive EvType
  | focus | blur | resize
  | keydown | keyup | keypress
  | mouseenter | mouseleave | mousemove | mousedown | mouseup
  | click | dblclick | contextmenu | wheel
deriving DecidableEq, Repr

/-- An element's per-category listener lists.  A handler is identified by
the address `getAddress` extracts from the `std::function` (a `Nat`). -/
structure Listeners where
  onfocus : List Nat := []
  onblur : List Nat := []
  onresize : List Nat := []
  onkeydown : List Nat := []
  onkeyup : List Nat := []
  onkeypress : List Nat := []
  onmouseenter : List Nat := []
  onmouseleave : List Nat := []
  onmousemove : List Nat := []
  onmousedown : List Nat := []
  onmouseup : List Nat := []
  onclick : List Nat := []
  ondblclick : List Nat := []
  oncontextmenu : List Nat := []
  onwheel : List Nat := []
deriving DecidableEq, Repr

/-- `Element::getEventVector`: map the event id to the matching vector.
(In C++ this returns a reference; mutation through the reference is
modelled by the field updates in `addListener`.) -/
def getEventVector (L : Listeners) (t : EvType) : List Nat :=
  match t with
  | .focus => L.onfocus
  | .blur => L.onblur
  | .resize => L.onresize
  | .keydown => L.onkeydown
  | .keyup => L.onkeyup
  | .keypress => L.onkeypress
  | .mouseenter => L.onmouseenter
  | .mouseleave => L.onmouseleave
  | .mousemove => L.onmousemove
  | .mousedown => L.onmousedown
  | .mouseup => L.onmouseup
  | .click => L.onclick
  | .dblclick => L.ondblclick
  | .contextmenu => L.oncontextmenu
  | .wheel => L.onwheel

/-- `Element::addListener`: `getEventVector(evtType).push_back(evtHandler)`
through the returned reference. -/
def addListener (L : Listeners) (t : EvType) (addr : Nat) : Listeners :=
  match t with
  | .focus => { L with onfocus := L.onfocus ++ [addr] }
  | .blur => { L with onblur := L.onblur ++ [addr] }
  | .resize => { L with onresize := L.onresize ++ [addr] }
  | .keydown => { L with onkeydown := L.onkeydown ++ [addr] }
  | .keyup => { L with onkeyup := L.onkeyup ++ [addr] }
  | .keypress => { L with onkeypress := L.onkeypress ++ [addr] }
  | .mouseenter => { L with onmouseenter := L.onmouseenter ++ [addr] }
  | .mouseleave => { L with onmouseleave := L.onmouseleave ++ [addr] }
  | .mousemove => { L with onmousemove := L.onmousemove ++ [addr] }
  | .mousedown => { L with onmousedown := L.onmousedown ++ [addr] }
  | .mouseup => { L with onmouseup := L.onmouseup ++ [addr] }
  | .click => { L with onclick := L.onclick ++ [addr] }
  | .dblclick => { L with ondblclick := L.ondblclick ++ [addr] }
  | .contextmenu => { L with oncontextmenu := L.oncontextmenu ++ [addr] }
  | .wheel => { L with onwheel := L.onwheel ++ [addr] }

/-- `Element::removeListener`, transcribed with its defect:
`auto eventList = getEventVector(evtType);` binds a *by-value copy* of
the vector (the declared type drops the reference), so the erase loop
runs on the local copy and the element's stored list is never modified.
The local result is computed and discarded, and the element is returned
unchanged. -/
def removeListener (L : Listeners) (t : EvType) (addr : Nat) : Listeners :=
  let eventList := getEventVector L t
  let _erasedLocalCopy := eventList.filter (fun a => a ≠ addr)
  L

/-! ## The element tree, registry and string index -/

/-- One element's record.  Handles (`Nat`) stand for the C++ object
addresses; `none` models a null pointer.  `indexBy` is the stored
`indexBy` attribute (`none` = attribute absent from the attribute map),
`dataList` the `data<std::string>()` payload, `softName` the element's
type name, `textColorVal` a stored `textColor` attribute (used by the
parser's implicit colour nodes). -/
structure Node where
  parent : Option Nat := none
  firstChild : Option Nat := none
  lastChild : Option Nat := none
  nextSibling : Option Nat := none
  prevSibling : Option Nat := none
  childCount : Nat := 0
  indexBy : Option String := none
  softName : String := ""
  dataList : List String := []
  attrs : List (String × String) := []
  textColorVal : Option (Nat × Nat × Nat × Nat) := none
deriving DecidableEq, Repr

instance : Inhabited Node := ⟨{}⟩

/-- The global state: the link heap (total over handles, mirroring raw
pointers), the element registry `viewManager::elements` (the set of live
handles, as a duplicate-free list), the string index
`viewManager::indexedElements`, and the allocation counter supplying
fresh handles. -/
structure St where
  nodes : Nat → Node
  live : List Nat
  index : String → Option Nat
  nextId : Nat

/-- Pointwise heap update (one C++ member assignment). -/
def setp (h : Nat → Node) (x : Nat) (n : Node) : Nat → Node :=
  fun y => if y = x then n else h y

theorem setp_same (h : Nat → Node) (x : Nat) (n : Node) : setp h x n x = n := by
  simp [setp]

theorem setp_other (h : Nat → Node) (x : Nat) (n : Node) (y : Nat) (hne : y ≠ x) :
    setp h x n y = h y := by
  simp [setp, hne]

/-- `viewManager::hasElement`: membership test on the string index. -/
def hasElement (s : St) (key : String) : Bool :=
  (s.index key).isSome

/-- `Element::appendChild(Element&)`, statement by statement:
set the child's parent and previous-sibling links, make it the first
child if the list was empty, chain the old last child to it, make it the
new last child, and bump the child count. -/
def appendChildSt (s : St) (p c : Nat) : St :=
  let h0 := s.nodes
  -- newChild.m_parent = this
  let h1 := setp h0 c { h0 c with parent := some p }
  -- newChild.m_previousSibling = m_lastChild
  let h2 := setp h1 c { h1 c with prevSibling := (h1 p).lastChild }
  -- if (!m_firstChild) m_firstChild = newChild.m_self
  let h3 := if (h2 p).firstChild = none then
              setp h2 p { h2 p with firstChild := some c } else h2
  -- if (m_lastChild) m_lastChild->m_nextSibling = newChild.m_self
  let h4 := match (h3 p).lastChild with
            | some l => setp h3 l { h3 l with nextSibling := some c }
            | none => h3
  -- m_lastChild = newChild.m_self
  let h5 := setp h4 p { h4 p with lastChild := some c }
  -- m_childCount++
  let h6 := setp h5 p { h5 p with childCount := (h5 p).childCount + 1 }
  { s with nodes := h6 }

/-- `Element::insertBefore(Element&, Element&)` called on parent `p` with
new child `nw` and existing child `ex`, statement by statement. -/
def insertBeforeSt (s : St) (p nw ex : Nat) : St :=
  let h0 := s.nodes
  -- child.m_parent = existingElement.m_parent
  let h1 := setp h0 nw { h0 nw with parent := (h0 ex).parent }
  -- child.m_nextSibling = existingElement.m_self
  let h2 := setp h1 nw { h1 nw with nextSibling := some ex }
  -- child.m_previousSibling = existingElement.m_previousSibling
  let h3 := setp h2 nw { h2 nw with prevSibling := (h2 ex).prevSibling }
  -- existingElement.m_previousSibling = child.m_self
  let h4 := setp h3 ex { h3 ex with prevSibling := some nw }
  -- if (child.m_previousSibling) child.m_previousSibling->m_nextSibling = child.m_self
  let h5 := match (h4 nw).prevSibling with
            | some a => setp h4 a { h4 a with nextSibling := some nw }
            | none => h4
  -- if (child.m_nextSibling) child.m_nextSibling->m_previousSibling = child.m_self
  let h6 := match (h5 nw).nextSibling with
            | some b => setp h5 b { h5 b with prevSibling := some nw }
            | none => h5
  -- if (existingElement.m_self == m_firstChild) m_firstChild = child.m_self
  let h7 := if (h6 p).firstChild = some ex then
              setp h6 p { h6 p with firstChild := some nw } else h6
  -- m_childCount++
  let h8 := setp h7 p { h7 p with childCount := (h7 p).childCount + 1 }
  { s with nodes := h8 }

/-- `Element::insertAfter(Element&, Element&)` called on parent `p`,
statement by statement, including the source's link assignment
`newChild.m_nextSibling = existingElement.m_previousSibling;`
(where the symmetric `insertBefore` uses the existing element's *next*
sibling). -/
def insertAfterSt (s : St) (p nw ex : Nat) : St :=
  let h0 := s.nodes
  -- newChild.m_parent = existingElement.m_parent
  let h1 := setp h0 nw { h0 nw with parent := (h0 ex).parent }
  -- newChild.m_nextSibling = existingElement.m_previousSibling
  let h2 := setp h1 nw { h1 nw with nextSibling := (h1 ex).prevSibling }
  -- newChild.m_previousSibling = existingElement.m_self
  let h3 := setp h2 nw { h2 nw with prevSibling := some ex }
  -- if (existingElement.m_nextSibling)
  --   existingElement.m_nextSibling->m_previousSibling = newChild.m_self
  let h4 := match (h3 ex).nextSibling with
            | some b => setp h3 b { h3 b with prevSibling := some nw }
            | none => h3
  -- existingElement.m_nextSibling = newChild.m_self
  let h5 := setp h4 ex { h4 ex with nextSibling := some nw }
  -- if (existingElement.m_self == m_lastChild) m_lastChild = newChild.m_self
  let h6 := if (h5 p).lastChild = some ex then
              setp h5 p { h5 p with lastChild := some nw } else h5
  -- m_childCount++
  let h7 := setp h6 p { h6 p with childCount := (h6 p).childCount + 1 }
  { s with nodes := h7 }

/-- Erase a key from the registry (`elements.erase`). -/
def eraseLive (s : St) (x : Nat) : St :=
  { s with live := s.live.filter (fun y => y ≠ x) }

/-- Erase a key from the string index (`indexedElements.erase`). -/
def eraseIndex (s : St) (k : String) : St :=
  { s with index := fun key => if key = k then none else s.index key }

/-- The two statements shared by every destruction path: erase the
element's `indexBy` value from the string index (`try`/`catch` around the
throwing getter makes this a no-op when the attribute is absent), then
erase the element from the registry. -/
def purgeOne (s : St) (x : Nat) : St :=
  let s1 := match (s.nodes x).indexBy with
            | some k => eraseIndex s k
            | none => s
  eraseLive s1 x

mutual

/-- `Element::removeChild(Element&)` called on `self` with child `old`,
together with its inner recursion.  The C++ is recursive
(`pItem->removeChild(*pItem)` inside the sibling loop), so the model
takes a fuel bound; in every state the theorems use, the fuel never runs
out.  On error the C++ throws; the returned pair carries the heap as
mutated so far together with the error message. -/
def removeChildGo : Nat → St → Nat → Nat → St × Option String
  | 0, s, _, _ => (s, some "fuel exhausted")
  | fuel + 1, s, self, old =>
    -- if (oldChild.m_parent != m_self) throw
    if (s.nodes old).parent ≠ some self then
      (s, some "Referenced element is not a child.")
    else
      match removeChildLoop fuel s ((s.nodes old).firstChild) with
      | (s1, some e) => (s1, some e)
      | (s1, none) =>
        -- if (m_firstChild == oldChild.m_self) m_firstChild = oldChild.m_nextSibling
        let s2 := if (s1.nodes self).firstChild = some old then
                    { s1 with nodes := (setp s1.nodes self { s1.nodes self with firstChild := (s1.nodes old).nextSibling }) }
                  else s1
        -- if (m_lastChild == oldChild.m_self) m_lastChild = oldChild.m_previousSibling
        let s3 := if (s2.nodes self).lastChild = some old then
                    { s2 with nodes := (setp s2.nodes self { s2.nodes self with lastChild := (s2.nodes old).prevSibling }) }
                  else s2
        -- if (oldChild.m_previousSibling)
        --   oldChild.m_previousSibling->m_nextSibling = oldChild.m_nextSibling
        let s4 := match (s3.nodes old).prevSibling with
                  | some a => { s3 with nodes := (setp s3.nodes a { s3.nodes a with nextSibling := (s3.nodes old).nextSibling }) }
                  | none => s3
        -- if (oldChild.m_nextSibling)
        --   oldChild.m_nextSibling->m_previousSibling = oldChild.m_previousSibling
        let s5 := match (s4.nodes old).nextSibling with
                  | some b => { s4 with nodes := (setp s4.nodes b { s4.nodes b with prevSibling := (s4.nodes old).prevSibling }) }
                  | none => s4
        -- string-index erase, registry erase
        let s6 := purgeOne s5 old
        -- m_childCount--
        let s7 := { s6 with nodes := (setp s6.nodes self { s6.nodes self with childCount := (s6.nodes self).childCount - 1 }) }
        (s7, none)

-- The sibling loop of `removeChild`:
-- `while (pItem) { pItem->removeChild(*pItem); pItem = pItem->m_nextSibling; }`.
-- The recursive call passes `pItem` both as receiver and as argument, and
-- the advance reads the next-sibling link of the already freed node.
def removeChildLoop : Nat → St → Option Nat → St × Option String
  | _, s, none => (s, none)
  | 0, s, some _ => (s, some "fuel exhausted")
  | fuel + 1, s, some q =>
    match removeChildGo fuel s q q with
    | (s', some e) => (s', some e)
    | (s', none) => removeChildLoop fuel s' ((s'.nodes q).nextSibling)

end

/-- `Element::replaceChild(Element&, Element&)`: relink `nw` into `old`'s
position, then erase `old` (only `old` itself) from the string index and
registry.  The C++ dereferences `oldChild.m_parent` unconditionally; the
model requires the parent link to be present and leaves the state
unchanged otherwise. -/
def replaceChildSt (s : St) (nw old : Nat) : St :=
  match (s.nodes old).parent with
  | none => s
  | some pp =>
    let h0 := s.nodes
    -- if (oldChild.m_parent->m_firstChild == oldChild.m_self) ... = newChild.m_self
    let h1 := if (h0 pp).firstChild = some old then
                setp h0 pp { h0 pp with firstChild := some nw } else h0
    -- if (oldChild.m_parent->m_lastChild == oldChild.m_self) ... = newChild.m_self
    let h2 := if (h1 pp).lastChild = some old then
                setp h1 pp { h1 pp with lastChild := some nw } else h1
    -- if (oldChild.m_previousSibling) ...->m_nextSibling = newChild.m_self
    let h3 := match (h2 old).prevSibling with
              | some a => setp h2 a { h2 a with nextSibling := some nw }
              | none => h2
    -- if (oldChild.m_nextSibling) ...->m_previousSibling = newChild.m_self
    let h4 := match (h3 old).nextSibling with
              | some b => setp h3 b { h3 b with prevSibling := some nw }
              | none => h3
    -- newChild.m_parent = oldChild.m_parent
    let h5 := setp h4 nw { h4 nw with parent := some pp }
    -- index erase and registry erase for oldChild alone
    purgeOne { s with nodes := h5 } old

/-! ## The string-index maintenance (`updateIndexBy`) -/

/-- Insertion with `std::unordered_map::insert` semantics: if the key is
already present the insertion *fails* and the map keeps the existing
entry. -/
def indexInsert (idx : String → Option Nat) (k : String) (v : Nat) : String → Option Nat :=
  if (idx k).isSome then idx
  else fun key => if key = k then some v else idx key

/-- `Element::updateIndexBy`: the five-case table over the old stored id
and the incoming id.  The rename case uses `extract`/rekey/`insert`,
which also fails to land when the new key is already occupied. -/
def updateIndexBy (s : St) (e : Nat) (newKey : String) : St :=
  let oldKey := ((s.nodes e).indexBy).getD ""
  -- case a: same non-blank key, no change
  if oldKey ≠ "" ∧ oldKey = newKey then s
  -- case b: remap just the key (extract, rekey, insert)
  else if oldKey ≠ "" ∧ newKey ≠ "" then
    match s.index oldKey with
    | some v =>
      let afterExtract : String → Option Nat :=
        fun key => if key = oldKey then none else s.index key
      { s with index := indexInsert afterExtract newKey v }
    | none => s  -- extracting an absent key yields an empty node handle; inserting it is a no-op
  -- case c: remove key from map
  else if oldKey ≠ "" ∧ newKey = "" then
    eraseIndex s oldKey
  -- case d: did not exist before, add key to map
  else if newKey ≠ "" then
    { s with index := indexInsert s.index newKey e }
  else s

/-- `setAttribute(indexBy{...})`: the `dt_indexBy` filter case runs
`updateIndexBy` and then stores the attribute in the element's map. -/
def setIndexByAttr (s : St) (e : Nat) (k : String) : St :=
  let s1 := updateIndexBy s e k
  { s1 with nodes := setp s1.nodes e { s1.nodes e with indexBy := some k } }

/-! ## Queries -/

/-- `viewManager::query(const std::string&)`: `"*"` returns every live
element; otherwise each live element's `indexBy` attribute is fetched
with the throwing getter and matched against the pattern.  `rmatch`
stands for the ECMAScript case-insensitive `std::regex_match`; the model
is parametric in it.  An element without the attribute makes the getter
throw, which propagates out of `query`. -/
def queryGo (s : St) (rmatch : String → String → Bool) (pat : String) :
    List Nat → Except String (List Nat)
  | [] => .ok []
  | n :: t =>
    match (s.nodes n).indexBy with
    | none => .error "getAttribute: attribute not found"
    | some v =>
      match queryGo s rmatch pat t with
      | .error e => .error e
      | .ok rest => .ok (if rmatch pat v then n :: rest else rest)

/-- The string overload of `query`. -/
def queryPat (s : St) (rmatch : String → String → Bool) (pat : String) :
    Except String (List Nat) :=
  if pat = "*" then .ok s.live
  else queryGo s rmatch pat s.live

/-! ## The markup parser (`Element::ingestMarkup`) -/

/-- `viewManager::objectFactoryMap` with `INCLUDE_UX` undefined: tag name
(lower case) to element type.  The payload stands for the
`CREATE_OBJECT` factory lambda, which calls `createElement` for the named
class (here recorded as the class name the element is created with). -/
def objectFactoryMap : List (String × String) := [
  ("br", "BR"),
  ("h1", "H1"),
  ("h2", "H2"),
  ("h3", "H3"),
  ("paragraph", "PARAGRAPH"),
  ("p", "PARAGRAPH"),
  ("div", "DIV"),
  ("span", "SPAN"),
  ("ul", "UL"),
  ("ol", "OL"),
  ("li", "LI"),
  ("image", "IMAGE")]

/-- `viewManager::attributeFactory`, transcribed in source order: markup
attribute name to (compound flag, attribute type tag).  The tag names the
attribute object the setter lambda constructs; the `"indexBy"` tag is the
identity attribute whose setter runs the string-index maintenance.
`std::unordered_map`'s initializer keeps the *first* entry for a
duplicated key (the source lists `"left"` twice), which list order plus
first-match lookup reproduces. -/
def attributeFactory : List (String × (Bool × String)) := [
  ("id", (true, "indexBy")),
  ("indexby", (true, "indexBy")),
  ("block", (false, "display::block")),
  ("inline", (false, "display::in_line")),
  ("hidden", (false, "display::none")),
  ("display", (true, "display")),
  ("absolute", (false, "position::absolute")),
  ("relative", (false, "position::relative")),
  ("position", (true, "position")),
  ("objecttop", (true, "objectTop")),
  ("top", (true, "objectTop")),
  ("objectleft", (true, "objectLeft")),
  ("left", (true, "objectLeft")),
  ("objectheight", (true, "objectHeight")),
  ("height", (true, "objectHeight")),
  ("objectwidth", (true, "objectWidth")),
  ("width", (true, "objectWidth")),
  ("coordinates", (true, "coordinates")),
  ("scrolltop", (true, "scrollTop")),
  ("scrollleft", (true, "scrollLeft")),
  ("background", (true, "background")),
  ("opacity", (true, "opacity")),
  ("textface", (true, "textFace")),
  ("textsize", (true, "textSize")),
  ("textweight", (true, "textWeight")),
  ("weight", (true, "textWeight")),
  ("textcolor", (true, "textColor")),
  ("color", (true, "textColor")),
  ("textalignment", (true, "textAlignment")),
  ("left", (false, "textAlignment::left")),
  ("center", (false, "textAlignment::center")),
  ("right", (false, "textAlignment::right")),
  ("justified", (false, "textAlignment::justified")),
  ("textindent", (true, "textIndent")),
  ("indent", (true, "textIndent")),
  ("tabsize", (true, "tabSize")),
  ("tab", (true, "tabSize")),
  ("lineheight", (true, "lineHeight")),
  ("normal", (false, "lineHeight::normal")),
  ("numeric", (false, "lineHeight::numeric")),
  ("margintop", (true, "marginTop")),
  ("marginleft", (true, "marginLeft")),
  ("marginbottom", (true, "marginBottom")),
  ("marginright", (true, "marginRight")),
  ("margin", (true, "margin")),
  ("paddingtop", (true, "paddingTop")),
  ("paddingleft", (true, "paddingLeft")),
  ("paddingbottom", (true, "paddingBottom")),
  ("paddingright", (true, "paddingRight")),
  ("padding", (true, "padding")),
  ("borderstyle", (true, "borderStyle")),
  ("borderwidth", (true, "borderWidth")),
  ("bordercolor", (true, "borderColor")),
  ("borderradius", (true, "borderRadius")),
  ("focusindex", (true, "focusIndex")),
  ("focus", (true, "focusIndex")),
  ("zindex", (true, "zIndex")),
  ("liststyletype", (true, "listStyleType"))]

/-- The parser token kinds (`itemType`) with their payloads
(the `parserOperator` variant). -/
inductive PTok
  | element (className : String)
  | elementTerminal
  | attribute (tag : String)
  | attributeValue (s : String)
  | attributeSimple (tag : String)
  | color (q : Nat × Nat × Nat × Nat)
  | textData (s : String)
deriving DecidableEq, Repr

/-- The persistent `parserContext` (the function-local `static pc`):
token list with per-token handled flag, the construction stack (top
first; the C++ uses `push_back`/`back`/`pop_back` on a vector), and the
tokenizer flags and buffers.  Zero-initialised at program start. -/
structure ParserCtx where
  parsedData : List (PTok × Bool) := []
  elementStack : List Nat := []
  bSignal : Bool := false
  bToken : Bool := false
  bSkip : Bool := false
  bTerminal : Bool := false
  bAttributeList : Bool := false
  bAttributeListValue : Bool := false
  bQuery : Bool := false
  sCapture : String := ""
  sText : String := ""
deriving Repr

/-- Lower-casing as applied by `std::transform(..., ::tolower)`. -/
def toLowerStr (s : String) : String :=
  String.mk (s.data.map Char.toLower)

/-- The word-classification block run when `bQuery` is set, transcribed
branch by branch from the tokenizer. -/
def runQuery (ctx : ParserCtx) : ParserCtx :=
  let sKey := toLowerStr ctx.sCapture
  if ctx.bToken then
    -- attribute-name lookup; the capture is cleared and the query flag
    -- dropped whether or not the lookup hits
    let ctx :=
      match attributeFactory.find? (fun e => e.1 = sKey) with
      | some (_, (true, tag)) =>
        { ctx with parsedData := ctx.parsedData ++ [(PTok.attribute tag, false)],
                   bAttributeListValue := true }
      | some (_, (false, tag)) =>
        { ctx with parsedData := ctx.parsedData ++ [(PTok.attributeSimple tag, false)],
                   bAttributeListValue := false }
      | none => ctx
    { ctx with sCapture := "", bQuery := false }
  else if ctx.bAttributeList ∧ ctx.bAttributeListValue then
    -- the raw capture becomes an attribute-value token
    let ctx := { ctx with parsedData := ctx.parsedData ++ [(PTok.attributeValue ctx.sCapture, false)],
                          sCapture := "", bQuery := false }
    if ¬ ctx.bSignal then
      { ctx with bAttributeList := false, bAttributeListValue := false }
    else ctx
  else
    match objectFactoryMap.find? (fun e => e.1 = sKey) with
    | some (_, className) =>
      let ctx :=
        if ctx.bTerminal then
          { ctx with parsedData := ctx.parsedData ++ [(PTok.elementTerminal, false)],
                     bToken := false, bTerminal := false,
                     bAttributeList := false, bAttributeListValue := false }
        else
          { ctx with parsedData := ctx.parsedData ++ [(PTok.element className, false)],
                     bToken := true, bAttributeList := true,
                     bAttributeListValue := false }
      { ctx with sCapture := "", bQuery := false }
    | none =>
      -- unmatched words are checked against the colour table; note the
      -- capture buffer is *not* cleared in this branch
      let ctx :=
        match colorIndexFind sKey with
        | some rgb =>
          { ctx with parsedData := ctx.parsedData ++ [(PTok.color (colorChannels rgb), false)] }
        | none => ctx
      { ctx with bQuery := false }

/-- One character of the tokenizer: the dispatch `switch`, then the
query-classification block, then capture/text accumulation, then the
skip-flag reset. -/
def tokStep (ctx : ParserCtx) (ch : Char) : ParserCtx :=
  let ctx :=
    if ch = '<' then
      let ctx := if ctx.sText ≠ "" then
          { ctx with parsedData := ctx.parsedData ++ [(PTok.textData ctx.sText, false)], sText := "" }
        else ctx
      { ctx with bSignal := true, bSkip := true }
    else if ch = ' ' then
      if ctx.bSignal ∧ (¬ ctx.bToken ∨ ctx.bAttributeList) then
        { ctx with bQuery := true, bSkip := true }
      else ctx
    else if ch = '=' then
      if ctx.bAttributeList then { ctx with bQuery := true, bSkip := true } else ctx
    else if ch = '>' then
      if ctx.bSignal then
        { ctx with bSignal := false, bToken := false, bSkip := true, bQuery := true }
      else ctx
    else if ch = '/' then
      if ctx.bSignal then { ctx with bTerminal := true, bSkip := true } else ctx
    else ctx
  let ctx := if ctx.bQuery then runQuery ctx else ctx
  let ctx :=
    if ¬ ctx.bSkip then
      if ctx.bSignal then { ctx with sCapture := ctx.sCapture.push ch }
      else { ctx with sText := ctx.sText.push ch }
    else ctx
  { ctx with bSkip := false }

/-- Modelled from the spec: `createElement` (declared in the missing
header) constructs an element of the named class with default-initialised
links, registers it in the global registry under a fresh handle, and
returns it ("Registry: handle → owned element, populated at
construction").  The fresh handle comes from the allocation counter. -/
def createElement (s : St) (className : String) : St × Nat :=
  let e := s.nextId
  ({ s with nodes := setp s.nodes e { softName := className },
            live := s.live ++ [e],
            nextId := e + 1 }, e)

/-- Store a plain (non-identity) attribute on an element: the
`dt_nonFiltered` path of `setAttribute` keyed by type tag, overwriting
any previous value of the same tag.  The attribute objects' own value
parsing (`doubleNF`, `colorNF`, `strToEnum`) is modelled separately; here
the raw option string is recorded under the tag. -/
def setPlainAttr (s : St) (e : Nat) (tag v : String) : St :=
  { s with nodes := (setp s.nodes e { s.nodes e with attrs := (s.nodes e).attrs.filter (fun kv => kv.1 ≠ tag) ++ [(tag, v)] }) }

/-- Apply a markup attribute setter (the `attributeFactory` lambdas) to
an element: the identity attribute runs `setAttribute(indexBy{s})`; the
others store under their tag. -/
def applyAttrSetter (s : St) (e : Nat) (tag v : String) : St :=
  if tag = "indexBy" then setIndexByAttr s e v
  else setPlainAttr s e tag v

/-- Phase 2 of `ingestMarkup`: walk the token list against the
construction stack, acting on tokens whose handled flag is still clear
and marking them.  The `switch` has no case for `attributeValue` or
`attributeSimple`, so those keep a clear flag and do nothing.  Stack
accesses (`back`, `pop_back`) on an empty vector are undefined behaviour
in the C++; the model leaves the state unchanged there. -/
def buildGo (s : St) (stack : List Nat) :
    List (PTok × Bool) → St × List Nat × List (PTok × Bool)
  | [] => (s, stack, [])
  | (t, true) :: rest =>
    let (s', st', r') := buildGo s stack rest
    (s', st', (t, true) :: r')
  | (PTok.element className, false) :: rest =>
    let (s1, e) := createElement s className
    let s2 := match stack with
              | top :: _ => appendChildSt s1 top e
              | [] => s1
    let (s', st', r') := buildGo s2 (e :: stack) rest
    (s', st', (PTok.element className, true) :: r')
  | (PTok.elementTerminal, false) :: rest =>
    -- pc.elementStack.pop_back(); — unconditionally
    let (s', st', r') := buildGo s stack.tail rest
    (s', st', (PTok.elementTerminal, true) :: r')
  | (PTok.attribute tag, false) :: (PTok.attributeValue v, _) :: rest' =>
    -- the attribute and its value are consumed together
    let s2 := match stack with
              | top :: _ => applyAttrSetter s top tag v
              | [] => s
    let (s', st', r') := buildGo s2 stack rest'
    (s', st', (PTok.attribute tag, true) :: (PTok.attributeValue v, true) :: r')
  | (PTok.attribute tag, false) :: rest =>
    -- an attribute token with no following value: marked handled, ignored
    let (s', st', r') := buildGo s stack rest
    (s', st', (PTok.attribute tag, true) :: r')
  | (PTok.attributeValue v, false) :: rest =>
    -- no case in the phase-2 switch: flag stays clear, nothing happens
    let (s', st', r') := buildGo s stack rest
    (s', st', (PTok.attributeValue v, false) :: r')
  | (PTok.attributeSimple tag, false) :: rest =>
    -- no case in the phase-2 switch either: the setter is never invoked
    let (s', st', r') := buildGo s stack rest
    (s', st', (PTok.attributeSimple tag, false) :: r')
  | (PTok.color q, false) :: rest =>
    -- appendChild<textNode>(textColor{...}) and push the new node
    let (s1, e) := createElement s "textNode"
    let s2 := { s1 with nodes := (setp s1.nodes e { s1.nodes e with textColorVal := some q }) }
    let s3 := match stack with
              | top :: _ => appendChildSt s2 top e
              | [] => s2
    let (s', st', r') := buildGo s3 (e :: stack) rest
    (s', st', (PTok.color q, true) :: r')
  | (PTok.textData str, false) :: rest =>
    let s2 := match stack with
              | top :: _ => { s with nodes := (setp s.nodes top { s.nodes top with dataList := (s.nodes top).dataList ++ [str] }) }
              | [] => s
    let (s', st', r') := buildGo s2 stack rest
    (s', st', (PTok.textData str, true) :: r')

/-- `Element::ingestMarkup(node, markup)`: seed the stack with the
ingestion target when empty, tokenize the input, flush a trailing text
run, run the build phase, and return the element on top of the stack
(`none` models `back()` on an emptied stack, which in the C++ is an
out-of-bounds read). -/
def ingestMarkup (s : St) (ctx : ParserCtx) (target : Nat) (markup : String) :
    St × ParserCtx × Option Nat :=
  let ctx := if ctx.elementStack = [] then { ctx with elementStack := [target] } else ctx
  let ctx := markup.data.foldl tokStep ctx
  let ctx := if ctx.sText ≠ "" then
      { ctx with parsedData := ctx.parsedData ++ [(PTok.textData ctx.sText, false)], sText := "" }
    else ctx
  let (s', stack', toks') := buildGo s ctx.elementStack ctx.parsedData
  (s', { ctx with elementStack := stack', parsedData := toks' }, stack'.head?)

/-! ## The doubly-linked child-list invariant

`segOk h p pv xn cs` checks that `cs` is a well-linked sibling segment of
parent `p`: each member's parent link is `p`, the previous-sibling link
of the first member is `pv`, consecutive members point at each other in
both directions, and the next-sibling link of the last member is `xn`.
`Encodes h p cs` says `cs` is exactly the child list of `p`: the forward
walk from `firstChild` along `nextSibling` visits `cs` in order, its last
member is `lastChild` whose `nextSibling` is null, and the backward walk
from `lastChild` along `previousSibling` yields the reverse. -/

def segOk (h : Nat → Node) (p : Nat) : Option Nat → Option Nat → List Nat → Bool
  | _, _, [] => true
  | pv, xn, [x] =>
    ((h x).parent == some p) && ((h x).prevSibling == pv) && ((h x).nextSibling == xn)
  | pv, xn, x :: y :: rest =>
    ((h x).parent == some p) && ((h x).prevSibling == pv) && ((h x).nextSibling == some y)
      && segOk h p (some x) xn (y :: rest)

/-- The child list of `p` is exactly `cs`, doubly linked and
parent-consistent. -/
def Encodes (h : Nat → Node) (p : Nat) (cs : List Nat) : Prop :=
  (h p).firstChild = cs.head? ∧ (h p).lastChild = cs.getLast? ∧
    segOk h p none none cs = true

/-- The entry previous-sibling link seen by a segment that follows `l₁`
when the whole chain entered with `pv`. -/
def entryPrev (pv : Option Nat) (l₁ : List Nat) : Option Nat :=
  match l₁.getLast? with
  | some a => some a
  | none => pv

theorem entryPrev_nil (pv : Option Nat) : entryPrev pv [] = pv := rfl

theorem entryPrev_cons_cons (pv : Option Nat) (x y : Nat) (l : List Nat) :
    entryPrev pv (x :: y :: l) = entryPrev (some x) (y :: l) := by
  simp only [entryPrev, List.getLast?_cons_cons]
  cases hgl : (y :: l).getLast? with
  | none => exact absurd (List.getLast?_eq_none_iff.1 hgl) (List.cons_ne_nil y l)
  | some a => rfl

theorem entryPrev_single (pv : Option Nat) (x : Nat) : entryPrev pv [x] = some x := rfl

theorem mem_of_getLast?_eq {l : List Nat} {a : Nat} (h : l.getLast? = some a) : a ∈ l := by
  obtain ⟨hne, rfl⟩ :=
    List.mem_getLast?_eq_getLast (x := a) (l := l) (by simp [Option.mem_def, h])
  exact List.getLast_mem hne

/-- Splitting / joining a sibling segment at an interior member. -/
theorem segOk_append_cons (h : Nat → Node) (p : Nat) :
    ∀ (l₁ : List Nat) (pv xn : Option Nat) (b : Nat) (t : List Nat),
      (segOk h p pv xn (l₁ ++ b :: t) = true ↔
        (segOk h p pv (some b) l₁ = true ∧ segOk h p (entryPrev pv l₁) xn (b :: t) = true))
  | [], pv, xn, b, t => by simp [segOk, entryPrev_nil]
  | [x], pv, xn, b, t => by
    simp only [List.cons_append, List.nil_append, segOk, entryPrev_single,
      Bool.and_eq_true, beq_iff_eq]
  | x :: y :: l₁, pv, xn, b, t => by
    have ih := segOk_append_cons h p (y :: l₁) (some x) xn b t
    simp only [List.cons_append] at ih ⊢
    simp only [segOk, Bool.and_eq_true, beq_iff_eq, entryPrev_cons_cons]
    rw [ih]
    tauto

/-- A segment check only reads the three link fields of its members. -/
theorem segOk_congr (h h' : Nat → Node) (p : Nat) :
    ∀ (l : List Nat) (pv xn : Option Nat),
      (∀ x ∈ l, (h' x).parent = (h x).parent ∧
        (h' x).nextSibling = (h x).nextSibling ∧ (h' x).prevSibling = (h x).prevSibling) →
      segOk h' p pv xn l = segOk h p pv xn l
  | [], _, _, _ => rfl
  | [x], pv, xn, hag => by
    have hx := hag x (by simp)
    simp [segOk, hx.1, hx.2.1, hx.2.2]
  | x :: y :: l, pv, xn, hag => by
    have hx := hag x (by simp)
    have ih := segOk_congr h h' p (y :: l) (some x) xn
      (fun z hz => hag z (List.mem_cons_of_mem x hz))
    simp [segOk, hx.1, hx.2.1, hx.2.2, ih]

/-- Every member of a well-linked segment has parent `p`. -/
theorem segOk_parent (h : Nat → Node) (p : Nat) :
    ∀ (l : List Nat) (pv xn : Option Nat), segOk h p pv xn l = true →
      ∀ x ∈ l, (h x).parent = some p
  | [], _, _, _ => by intro x hx; cases hx
  | [x], pv, xn, hseg => by
    simp only [segOk, Bool.and_eq_true, beq_iff_eq] at hseg
    intro z hz
    rcases List.mem_singleton.1 hz with rfl
    exact hseg.1.1
  | x :: y :: l, pv, xn, hseg => by
    simp only [segOk, Bool.and_eq_true, beq_iff_eq] at hseg
    intro z hz
    rcases List.mem_cons.1 hz with rfl | hz
    · exact hseg.1.1.1
    · exact segOk_parent h p (y :: l) (some x) xn hseg.2 z hz

/-- Rewire the exit of a segment: if only the last member's next-sibling
link changes (to the new exit), the segment stays well linked. -/
theorem segOk_retarget (h h' : Nat → Node) (p : Nat) (a : Nat) (xn' : Option Nat)
    (hnew : (h' a).nextSibling = xn') :
    ∀ (l : List Nat) (pv xn : Option Nat),
      l.getLast? = some a → l.Nodup →
      (∀ x ∈ l, (h' x).parent = (h x).parent ∧ (h' x).prevSibling = (h x).prevSibling) →
      (∀ x ∈ l, x ≠ a → (h' x).nextSibling = (h x).nextSibling) →
      segOk h p pv xn l = true → segOk h' p pv xn' l = true
  | [], _, _, hlast, _, _, _, _ => by simp at hlast
  | [x], pv, xn, hlast, hnd, hag, hagn, hseg => by
    have hxa : x = a := by simpa using hlast
    subst hxa
    simp only [segOk, Bool.and_eq_true, beq_iff_eq] at hseg ⊢
    have hx := hag x (by simp)
    exact ⟨⟨hx.1.trans hseg.1.1, hx.2.trans hseg.1.2⟩, hnew⟩
  | x :: y :: l, pv, xn, hlast, hnd, hag, hagn, hseg => by
    rw [List.getLast?_cons_cons] at hlast
    have hmem : a ∈ y :: l := mem_of_getLast?_eq hlast
    have hxa : x ≠ a := fun hxa => (List.nodup_cons.1 hnd).1 (hxa ▸ hmem)
    simp only [segOk, Bool.and_eq_true, beq_iff_eq] at hseg ⊢
    have hx := hag x (by simp)
    refine ⟨⟨⟨hx.1.trans hseg.1.1.1, hx.2.trans hseg.1.1.2⟩,
      (hagn x (by simp) hxa).trans hseg.1.2⟩, ?_⟩
    exact segOk_retarget h h' p a xn' hnew (y :: l) (some x) xn hlast
      (List.nodup_cons.1 hnd).2
      (fun z hz => hag z (List.mem_cons_of_mem x hz))
      (fun z hz hza => hagn z (List.mem_cons_of_mem x hz) hza)
      hseg.2

/-- Rewire the entry of a segment: if only the first member's
previous-sibling link changes (to the new entry), the segment stays well
linked. -/
theorem segOk_reenter (h h' : Nat → Node) (p : Nat) (b : Nat) (pv' : Option Nat)
    (hnew : (h' b).prevSibling = pv')
    (l : List Nat) (pv xn : Option Nat)
    (hhead : l.head? = some b) (hnd : l.Nodup)
    (hag : ∀ x ∈ l, (h' x).parent = (h x).parent ∧ (h' x).nextSibling = (h x).nextSibling)
    (hagp : ∀ x ∈ l, x ≠ b → (h' x).prevSibling = (h x).prevSibling)
    (hseg : segOk h p pv xn l = true) : segOk h' p pv' xn l = true := by
  cases l with
  | nil => simp at hhead
  | cons x l =>
    simp only [List.head?_cons, Option.some_inj] at hhead
    subst hhead
    cases l with
    | nil =>
      simp only [segOk, Bool.and_eq_true, beq_iff_eq] at hseg ⊢
      have hx := hag x (by simp)
      exact ⟨⟨hx.1.trans hseg.1.1, hnew⟩, hx.2.trans hseg.2⟩
    | cons y l =>
      simp only [segOk, Bool.and_eq_true, beq_iff_eq] at hseg ⊢
      have hx := hag x (by simp)
      refine ⟨⟨⟨hx.1.trans hseg.1.1.1, hnew⟩, hx.2.trans hseg.1.2⟩, ?_⟩
      have hcongr : segOk h' p (some x) xn (y :: l) = segOk h p (some x) xn (y :: l) := by
        refine segOk_congr h h' p (y :: l) (some x) xn (fun z hz => ?_)
        have hzx : z ≠ x := fun hzx => (List.nodup_cons.1 hnd).1 (hzx ▸ hz)
        exact ⟨(hag z (List.mem_cons_of_mem x hz)).1,
          (hag z (List.mem_cons_of_mem x hz)).2,
          hagp z (List.mem_cons_of_mem x hz) hzx⟩
      rw [hcongr]
      exact hseg.2


/-- A detached element: null parent and sibling links (the precondition
the spec states for `appendChild`, and the state `createElement` leaves a
fresh element in). -/
def Detached (s : St) (c : Nat) : Prop :=
  (s.nodes c).parent = none ∧ (s.nodes c).nextSibling = none ∧
    (s.nodes c).prevSibling = none

/-- Global well-formedness of the tree state, witnessed by a child-list
assignment `ch`: every live element's child list is exactly `ch p`
(doubly linked, duplicate free, all members live), every live element
with a parent link is listed by that parent, and no element is its own
parent. -/
def Coherent (s : St) (ch : Nat → List Nat) : Prop :=
  (∀ p ∈ s.live, Encodes s.nodes p (ch p) ∧ (ch p).Nodup ∧ ∀ x ∈ ch p, x ∈ s.live)
  ∧ (∀ c ∈ s.live, ∀ p, (s.nodes c).parent = some p → p ∈ s.live ∧ c ∈ ch p)
  ∧ (∀ c ∈ s.live, (s.nodes c).parent ≠ some c)

/-- The tree invariant: some child-list assignment witnesses coherence. -/
def Inv (s : St) : Prop := ∃ ch, Coherent s ch

theorem mem_ch_parent {s : St} {ch : Nat → List Nat} (hC : Coherent s ch)
    {r x : Nat} (hr : r ∈ s.live) (hx : x ∈ ch r) : (s.nodes x).parent = some r :=
  segOk_parent s.nodes r (ch r) none none ((hC.1 r hr).1.2.2) x hx

theorem self_not_mem_ch {s : St} {ch : Nat → List Nat} (hC : Coherent s ch)
    {p : Nat} (hp : p ∈ s.live) : p ∉ ch p := fun hmem =>
  hC.2.2 p hp (mem_ch_parent hC hp hmem)

theorem detached_not_mem_ch {s : St} {ch : Nat → List Nat} (hC : Coherent s ch)
    {c : Nat} (hdet : (s.nodes c).parent = none)
    {r : Nat} (hr : r ∈ s.live) : c ∉ ch r := fun hmem => by
  have := mem_ch_parent hC hr hmem
  rw [hdet] at this
  cases this

/-! ### Pointwise descriptions of the structural operations -/

/-- `appendChild` into an empty child list. -/
theorem appendChildSt_nodes_empty (s : St) (p c : Nat) (hcp : c ≠ p)
    (hF : (s.nodes p).firstChild = none) (hL : (s.nodes p).lastChild = none) :
    (appendChildSt s p c).nodes = fun y =>
      if y = c then { s.nodes c with parent := some p, prevSibling := none }
      else if y = p then { s.nodes p with firstChild := some c, lastChild := some c, childCount := (s.nodes p).childCount + 1 }
      else s.nodes y := by
  have hpc : p ≠ c := Ne.symm hcp
  funext y
  by_cases hyc : y = c
  · subst hyc
    simp [appendChildSt, setp, hcp, hpc, hF, hL]
  · by_cases hyp : y = p
    · subst hyp
      simp [appendChildSt, setp, hcp, hpc, hF, hL, hyc]
    · simp [appendChildSt, setp, hcp, hpc, hF, hL, hyc, hyp]

/-- `appendChild` into a non-empty child list with last child `l`. -/
theorem appendChildSt_nodes_snoc (s : St) (p c l : Nat) (hcp : c ≠ p)
    (hF : (s.nodes p).firstChild ≠ none) (hL : (s.nodes p).lastChild = some l)
    (hlc : l ≠ c) (hlp : l ≠ p) :
    (appendChildSt s p c).nodes = fun y =>
      if y = c then { s.nodes c with parent := some p, prevSibling := some l }
      else if y = p then { s.nodes p with lastChild := some c, childCount := (s.nodes p).childCount + 1 }
      else if y = l then { s.nodes l with nextSibling := some c }
      else s.nodes y := by
  have hpc : p ≠ c := Ne.symm hcp
  have hcl : c ≠ l := Ne.symm hlc
  have hpl : p ≠ l := Ne.symm hlp
  funext y
  by_cases hyc : y = c
  · subst hyc
    simp [appendChildSt, setp, hcp, hpc, hF, hL, hcl, hlc, hpl, hlp]
  · by_cases hyp : y = p
    · subst hyp
      simp [appendChildSt, setp, hcp, hpc, hF, hL, hcl, hlc, hpl, hlp, hyc]
    · by_cases hyl : y = l
      · subst hyl
        simp [appendChildSt, setp, hcp, hpc, hF, hL, hcl, hlc, hpl, hlp, hyc, hyp]
      · simp [appendChildSt, setp, hcp, hpc, hF, hL, hcl, hlc, hpl, hlp, hyc, hyp, hyl]

theorem appendChildSt_live (s : St) (p c : Nat) : (appendChildSt s p c).live = s.live := rfl

/-- `insertBefore` when the existing child has no previous sibling. -/
theorem insertBeforeSt_nodes_head (s : St) (p nw ex : Nat)
    (hpar : (s.nodes ex).parent = some p)
    (hprev : (s.nodes ex).prevSibling = none)
    (hnp : nw ≠ p) (hne : nw ≠ ex) (hep : ex ≠ p) :
    (insertBeforeSt s p nw ex).nodes = fun y =>
      if y = nw then { s.nodes nw with parent := some p, nextSibling := some ex, prevSibling := none }
      else if y = ex then { s.nodes ex with prevSibling := some nw }
      else if y = p then { s.nodes p with firstChild := (if (s.nodes p).firstChild = some ex then some nw else (s.nodes p).firstChild), childCount := (s.nodes p).childCount + 1 }
      else s.nodes y := by
  have hpn : p ≠ nw := Ne.symm hnp
  have hen : ex ≠ nw := Ne.symm hne
  have hpe : p ≠ ex := Ne.symm hep
  funext y
  by_cases hfe : (s.nodes p).firstChild = some ex <;>
    by_cases hyn : y = nw <;>
    by_cases hye : y = ex <;>
    by_cases hyp' : y = p <;>
    simp_all [insertBeforeSt, setp]

/-- `insertBefore` when the existing child has previous sibling `a`. -/
theorem insertBeforeSt_nodes_mid (s : St) (p nw ex a : Nat)
    (hpar : (s.nodes ex).parent = some p)
    (hprev : (s.nodes ex).prevSibling = some a)
    (hnp : nw ≠ p) (hne : nw ≠ ex) (hep : ex ≠ p)
    (hna : nw ≠ a) (hea : ex ≠ a) (hap : a ≠ p) :
    (insertBeforeSt s p nw ex).nodes = fun y =>
      if y = nw then { s.nodes nw with parent := some p, nextSibling := some ex, prevSibling := some a }
      else if y = ex then { s.nodes ex with prevSibling := some nw }
      else if y = a then { s.nodes a with nextSibling := some nw }
      else if y = p then { s.nodes p with firstChild := (if (s.nodes p).firstChild = some ex then some nw else (s.nodes p).firstChild), childCount := (s.nodes p).childCount + 1 }
      else s.nodes y := by
  have hpn : p ≠ nw := Ne.symm hnp
  have hen : ex ≠ nw := Ne.symm hne
  have hpe : p ≠ ex := Ne.symm hep
  have han : a ≠ nw := Ne.symm hna
  have hae : a ≠ ex := Ne.symm hea
  have hpa : p ≠ a := Ne.symm hap
  funext y
  by_cases hfe : (s.nodes p).firstChild = some ex <;>
    by_cases hyn : y = nw <;>
    by_cases hye : y = ex <;>
    by_cases hya : y = a <;>
    by_cases hyp' : y = p <;>
    simp_all [insertBeforeSt, setp]

theorem insertBeforeSt_live (s : St) (p nw ex : Nat) :
    (insertBeforeSt s p nw ex).live = s.live := rfl

/-! ### Behaviour of `removeChild` under the invariant -/

/-- The unlink-and-purge tail of `removeChild`, as executed for a leaf
child once the sibling loop has returned without error. -/
def removeLeafSt (s : St) (self old : Nat) : St :=
  let s1 := s
  let s2 := if (s1.nodes self).firstChild = some old then
              { s1 with nodes := (setp s1.nodes self { s1.nodes self with firstChild := (s1.nodes old).nextSibling }) }
            else s1
  let s3 := if (s2.nodes self).lastChild = some old then
              { s2 with nodes := (setp s2.nodes self { s2.nodes self with lastChild := (s2.nodes old).prevSibling }) }
            else s2
  let s4 := match (s3.nodes old).prevSibling with
            | some a => { s3 with nodes := (setp s3.nodes a { s3.nodes a with nextSibling := (s3.nodes old).nextSibling }) }
            | none => s3
  let s5 := match (s4.nodes old).nextSibling with
            | some b => { s4 with nodes := (setp s4.nodes b { s4.nodes b with prevSibling := (s4.nodes old).prevSibling }) }
            | none => s4
  let s6 := purgeOne s5 old
  { s6 with nodes := (setp s6.nodes self { s6.nodes self with childCount := (s6.nodes self).childCount - 1 }) }

/-- `removeChild` with a mismatched parent link throws before mutating. -/
theorem removeChildGo_not_child (fuel : Nat) (s : St) (self old : Nat)
    (h : (s.nodes old).parent ≠ some self) :
    removeChildGo (fuel + 1) s self old = (s, some "Referenced element is not a child.") := by
  simp [removeChildGo, h]

/-- `removeChild` of a child that itself has a first child `q`: the inner
call `pItem->removeChild(*pItem)` fails its own parent guard (since `q`'s
parent is the child, not `q`), and the exception propagates before any
mutation. -/
theorem removeChildGo_nonleaf (fuel : Nat) (s : St) (self old q : Nat)
    (hpar : (s.nodes old).parent = some self)
    (hq : (s.nodes old).firstChild = some q)
    (hqq : (s.nodes q).parent ≠ some q) :
    removeChildGo (fuel + 3) s self old = (s, some "Referenced element is not a child.") := by
  simp [removeChildGo, removeChildLoop, hpar, hq, hqq]

/-- `removeChild` of a leaf child unlinks and purges it. -/
theorem removeChildGo_leaf (fuel : Nat) (s : St) (self old : Nat)
    (hpar : (s.nodes old).parent = some self)
    (hleaf : (s.nodes old).firstChild = none) :
    removeChildGo (fuel + 1) s self old = (removeLeafSt s self old, none) := by
  simp [removeChildGo, removeChildLoop, hpar, hleaf, removeLeafSt]

/-- Unlinking an only child. -/
theorem removeLeafSt_only (s : St) (self old : Nat) (hso : self ≠ old)
    (hfst : (s.nodes self).firstChild = some old)
    (hlst : (s.nodes self).lastChild = some old)
    (hPR : (s.nodes old).prevSibling = none)
    (hNX : (s.nodes old).nextSibling = none) :
    (removeLeafSt s self old).nodes = (fun y =>
      if y = self then { s.nodes self with firstChild := none, lastChild := none, childCount := (s.nodes self).childCount - 1 }
      else s.nodes y)
    ∧ (removeLeafSt s self old).live = s.live.filter (fun y => y ≠ old) := by
  have hos : old ≠ self := Ne.symm hso
  constructor
  · funext y
    by_cases hys : y = self <;>
      cases hidx : (s.nodes old).indexBy <;>
      simp_all [removeLeafSt, setp, purgeOne, eraseIndex, eraseLive]
  · cases hidx : (s.nodes old).indexBy <;>
      simp_all [removeLeafSt, setp, purgeOne, eraseIndex, eraseLive]

/-- Unlinking the first of several children (successor `b`). -/
theorem removeLeafSt_head (s : St) (self old b : Nat) (hso : self ≠ old)
    (hbo : b ≠ old) (hbs : b ≠ self)
    (hfst : (s.nodes self).firstChild = some old)
    (hlst : (s.nodes self).lastChild ≠ some old)
    (hPR : (s.nodes old).prevSibling = none)
    (hNX : (s.nodes old).nextSibling = some b) :
    (removeLeafSt s self old).nodes = (fun y =>
      if y = self then { s.nodes self with firstChild := some b, childCount := (s.nodes self).childCount - 1 }
      else if y = b then { s.nodes b with prevSibling := none }
      else s.nodes y)
    ∧ (removeLeafSt s self old).live = s.live.filter (fun y => y ≠ old) := by
  have hos : old ≠ self := Ne.symm hso
  have hob : old ≠ b := Ne.symm hbo
  have hsb : self ≠ b := Ne.symm hbs
  constructor
  · funext y
    by_cases hys : y = self <;>
      by_cases hyb : y = b <;>
      cases hidx : (s.nodes old).indexBy <;>
      simp_all [removeLeafSt, setp, purgeOne, eraseIndex, eraseLive]
  · cases hidx : (s.nodes old).indexBy <;>
      simp_all [removeLeafSt, setp, purgeOne, eraseIndex, eraseLive]

/-- Unlinking the last of several children (predecessor `a`). -/
theorem removeLeafSt_last (s : St) (self old a : Nat) (hso : self ≠ old)
    (hao : a ≠ old) (has : a ≠ self)
    (hfst : (s.nodes self).firstChild ≠ some old)
    (hlst : (s.nodes self).lastChild = some old)
    (hPR : (s.nodes old).prevSibling = some a)
    (hNX : (s.nodes old).nextSibling = none) :
    (removeLeafSt s self old).nodes = (fun y =>
      if y = self then { s.nodes self with lastChild := some a, childCount := (s.nodes self).childCount - 1 }
      else if y = a then { s.nodes a with nextSibling := none }
      else s.nodes y)
    ∧ (removeLeafSt s self old).live = s.live.filter (fun y => y ≠ old) := by
  have hos : old ≠ self := Ne.symm hso
  have hoa : old ≠ a := Ne.symm hao
  have hsa : self ≠ a := Ne.symm has
  constructor
  · funext y
    by_cases hys : y = self <;>
      by_cases hya : y = a <;>
      cases hidx : (s.nodes old).indexBy <;>
      simp_all [removeLeafSt, setp, purgeOne, eraseIndex, eraseLive]
  · cases hidx : (s.nodes old).indexBy <;>
      simp_all [removeLeafSt, setp, purgeOne, eraseIndex, eraseLive]

/-- Unlinking an interior child (predecessor `a`, successor `b`). -/
theorem removeLeafSt_mid (s : St) (self old a b : Nat) (hso : self ≠ old)
    (hao : a ≠ old) (has : a ≠ self) (hbo : b ≠ old) (hbs : b ≠ self) (hba : b ≠ a)
    (hfst : (s.nodes self).firstChild ≠ some old)
    (hlst : (s.nodes self).lastChild ≠ some old)
    (hPR : (s.nodes old).prevSibling = some a)
    (hNX : (s.nodes old).nextSibling = some b) :
    (removeLeafSt s self old).nodes = (fun y =>
      if y = self then { s.nodes self with childCount := (s.nodes self).childCount - 1 }
      else if y = a then { s.nodes a with nextSibling := some b }
      else if y = b then { s.nodes b with prevSibling := some a }
      else s.nodes y)
    ∧ (removeLeafSt s self old).live = s.live.filter (fun y => y ≠ old) := by
  have hos : old ≠ self := Ne.symm hso
  have hoa : old ≠ a := Ne.symm hao
  have hsa : self ≠ a := Ne.symm has
  have hob : old ≠ b := Ne.symm hbo
  have hsb : self ≠ b := Ne.symm hbs
  have hab : a ≠ b := Ne.symm hba
  constructor
  · funext y
    by_cases hys : y = self <;>
      by_cases hya : y = a <;>
      by_cases hyb : y = b <;>
      cases hidx : (s.nodes old).indexBy <;>
      simp_all [removeLeafSt, setp, purgeOne, eraseIndex, eraseLive]
  · cases hidx : (s.nodes old).indexBy <;>
      simp_all [removeLeafSt, setp, purgeOne, eraseIndex, eraseLive]

/-- Frame rule: a node whose first/last links are unchanged and whose
listed children keep their link fields still encodes the same list. -/
theorem encodes_frame {h h' : Nat → Node} {r : Nat} {cs : List Nat}
    (hfl : (h' r).firstChild = (h r).firstChild)
    (hll : (h' r).lastChild = (h r).lastChild)
    (hag : ∀ x ∈ cs, (h' x).parent = (h x).parent ∧
      (h' x).nextSibling = (h x).nextSibling ∧ (h' x).prevSibling = (h x).prevSibling)
    (henc : Encodes h r cs) : Encodes h' r cs := by
  obtain ⟨h1, h2, h3⟩ := henc
  refine ⟨hfl.trans h1, hll.trans h2, ?_⟩
  rw [segOk_congr h h' r cs none none hag]
  exact h3

/-- `appendChild` of a detached live element preserves coherence, the
new child list being the old one with the child appended. -/
theorem append_preserves {s : St} {ch : Nat → List Nat} (hC : Coherent s ch)
    {p c : Nat} (hp : p ∈ s.live) (hc : c ∈ s.live) (hcp : c ≠ p)
    (hdet : Detached s c) :
    Coherent (appendChildSt s p c) (Function.update ch p (ch p ++ [c])) := by
  obtain ⟨hdp, hdn, hdv⟩ := hdet
  have hpc : p ≠ c := Ne.symm hcp
  obtain ⟨hfst, hlst, hseg⟩ := (hC.1 p hp).1
  have hndp := (hC.1 p hp).2.1
  have hsubp := (hC.1 p hp).2.2
  have hcnot : c ∉ ch p := detached_not_mem_ch hC hdp hp
  have hpnot : p ∉ ch p := self_not_mem_ch hC hp
  by_cases hnil : ch p = []
  case pos =>
    rw [hnil] at hfst hlst hseg
    simp only [List.head?_nil] at hfst
    simp only [List.getLast?_nil] at hlst
    have hND := appendChildSt_nodes_empty s p c hcp hfst hlst
    have hPAR : ∀ y, ((appendChildSt s p c).nodes y).parent =
        if y = c then some p else (s.nodes y).parent := by
      intro y
      rw [hND]
      by_cases hyc : y = c
      · simp [hpc, hyc]
      · by_cases hyp' : y = p <;> simp [hpc, hyc, hyp', hpc]
    refine ⟨?_, ?_, ?_⟩
    · intro r hr
      rw [appendChildSt_live] at hr
      by_cases hrp : r = p
      · rw [hrp, Function.update_same, hnil, List.nil_append]
        refine ⟨⟨?_, ?_, ?_⟩, by simp, ?_⟩
        · rw [hND]; simp [hpc, hpc]
        · rw [hND]; simp [hpc, hpc]
        · simp only [segOk, Bool.and_eq_true, beq_iff_eq, hND]
          simp [hpc, hcp, Ne.symm hcp, hdn]
        · intro x hx
          rw [List.mem_singleton] at hx
          subst hx
          exact hc
      · rw [Function.update_noteq hrp]
        obtain ⟨henc, hnd, hsub⟩ := hC.1 r hr
        refine ⟨?_, hnd, ?_⟩
        · refine encodes_frame ?_ ?_ ?_ henc
          · rw [hND]; by_cases hrc : r = c <;> simp [hpc, hrc, hrp]
          · rw [hND]; by_cases hrc : r = c <;> simp [hpc, hrc, hrp]
          · intro x hx
            have hxc : x ≠ c := fun hxc =>
              detached_not_mem_ch hC hdp hr (hxc ▸ hx)
            rw [hND]
            by_cases hxp : x = p <;> simp [hpc, hxc, hxp]
        · intro x hx
          rw [appendChildSt_live]
          exact hsub x hx
    · intro c' hc' p' hpar'
      rw [appendChildSt_live] at hc'
      rw [hPAR c'] at hpar'
      rw [appendChildSt_live]
      by_cases hcc : c' = c
      · rw [if_pos hcc] at hpar'
        have : p = p' := Option.some.inj hpar'
        subst this
        subst hcc
        refine ⟨hp, ?_⟩
        rw [Function.update_same]
        exact List.mem_append_right _ (by simp)
      · rw [if_neg hcc] at hpar'
        obtain ⟨hpl, hmem⟩ := hC.2.1 c' hc' p' hpar'
        refine ⟨hpl, ?_⟩
        by_cases hpp : p' = p
        · subst hpp
          rw [Function.update_same]
          exact List.mem_append_left _ hmem
        · rw [Function.update_noteq hpp]
          exact hmem
    · intro c' hc'
      rw [appendChildSt_live] at hc'
      rw [hPAR c']
      by_cases hcc : c' = c
      · rw [if_pos hcc]
        subst hcc
        intro hbad
        exact hcp (Option.some.inj hbad).symm
      · rw [if_neg hcc]
        exact hC.2.2 c' hc'
  case neg =>
    obtain ⟨l, hlast⟩ : ∃ l, (ch p).getLast? = some l :=
      ⟨(ch p).getLast hnil, List.getLast?_eq_getLast_of_ne_nil hnil⟩
    have hlmem : l ∈ ch p := mem_of_getLast?_eq hlast
    have hlc : l ≠ c := fun h => hcnot (h ▸ hlmem)
    have hlp : l ≠ p := fun h => hpnot (h ▸ hlmem)
    have hfne : (s.nodes p).firstChild ≠ none := by
      rw [hfst]
      cases hx : ch p with
      | nil => exact absurd hx hnil
      | cons f t => simp [hpc, hlc, hlp, hx]
    rw [hlast] at hlst
    have hND := appendChildSt_nodes_snoc s p c l hcp hfne hlst hlc hlp
    have hPAR : ∀ y, ((appendChildSt s p c).nodes y).parent =
        if y = c then some p else (s.nodes y).parent := by
      intro y
      rw [hND]
      by_cases hyc : y = c
      · simp [hpc, hlc, hlp, hyc]
      · by_cases hyp' : y = p
        · simp [hpc, hlc, hlp, hyc, hyp']
        · by_cases hyl : y = l <;> simp [hpc, hlc, hlp, hyc, hyp', hyl, hpc, hlp]
    refine ⟨?_, ?_, ?_⟩
    · intro r hr
      rw [appendChildSt_live] at hr
      by_cases hrp : r = p
      · rw [hrp, Function.update_same]
        refine ⟨⟨?_, ?_, ?_⟩, ?_, ?_⟩
        · rw [hND]
          simp only [if_neg (Ne.symm hcp), if_pos rfl]
          rw [List.head?_append_of_ne_nil _ hnil]
          exact hfst
        · rw [hND]
          simp only [if_neg (Ne.symm hcp), if_pos rfl]
          simp [hpc, hlc, hlp, List.getLast?_concat]
        · rw [segOk_append_cons (appendChildSt s p c).nodes p (ch p) none none c []]
          constructor
          · refine segOk_retarget s.nodes (appendChildSt s p c).nodes p l (some c)
              ?_ (ch p) none none hlast hndp ?_ ?_ hseg
            · rw [hND]; simp [hpc, hlc, hlp, hlc.symm, hlp]
            · intro x hx
              have hxc : x ≠ c := fun h => hcnot (h ▸ hx)
              rw [hND]
              by_cases hxp : x = p
              · simp [hpc, hlc, hlp, hxc, hxp]
              · by_cases hxl : x = l <;> simp [hpc, hlc, hlp, hxc, hxp, hxl]
            · intro x hx hxl
              have hxc : x ≠ c := fun h => hcnot (h ▸ hx)
              have hxp : x ≠ p := fun h => hpnot (h ▸ hx)
              rw [hND]
              simp [hpc, hlc, hlp, hxc, hxp, hxl]
          · have hentry : entryPrev none (ch p) = some l := by
              simp [entryPrev, hlast]
            rw [hentry]
            simp only [segOk, Bool.and_eq_true, beq_iff_eq]
            rw [hND]
            simp [hpc, hlc, hlp, hcp, hdn]
        · simp [List.nodup_append, hndp, hcnot]
        · intro x hx
          rw [appendChildSt_live]
          rcases List.mem_append.1 hx with hx | hx
          · exact hsubp x hx
          · rw [List.mem_singleton] at hx
            subst hx
            exact hc
      · rw [Function.update_noteq hrp]
        obtain ⟨henc, hnd, hsub⟩ := hC.1 r hr
        refine ⟨?_, hnd, ?_⟩
        · refine encodes_frame ?_ ?_ ?_ henc
          · rw [hND]
            by_cases hrc : r = c
            · simp [hpc, hlc, hlp, hrc, hrp]
            · by_cases hrl : r = l <;> simp [hpc, hlc, hlp, hrc, hrp, hrl]
          · rw [hND]
            by_cases hrc : r = c
            · simp [hpc, hlc, hlp, hrc, hrp]
            · by_cases hrl : r = l <;> simp [hpc, hlc, hlp, hrc, hrp, hrl]
          · intro x hx
            have hxc : x ≠ c := fun hxc =>
              detached_not_mem_ch hC hdp hr (hxc ▸ hx)
            have hxl : x ≠ l := by
              intro hxl
              subst hxl
              have h1 := mem_ch_parent hC hr hx
              have h2 := mem_ch_parent hC hp hlmem
              rw [h2] at h1
              exact hrp (Option.some.inj h1).symm
            rw [hND]
            by_cases hxp : x = p <;> simp [hpc, hlc, hlp, hxc, hxp, hxl]
        · intro x hx
          rw [appendChildSt_live]
          exact hsub x hx
    · intro c' hc' p' hpar'
      rw [appendChildSt_live] at hc'
      rw [hPAR c'] at hpar'
      rw [appendChildSt_live]
      by_cases hcc : c' = c
      · rw [if_pos hcc] at hpar'
        have : p = p' := Option.some.inj hpar'
        subst this
        subst hcc
        refine ⟨hp, ?_⟩
        rw [Function.update_same]
        exact List.mem_append_right _ (by simp)
      · rw [if_neg hcc] at hpar'
        obtain ⟨hpl, hmem⟩ := hC.2.1 c' hc' p' hpar'
        refine ⟨hpl, ?_⟩
        by_cases hpp : p' = p
        · subst hpp
          rw [Function.update_same]
          exact List.mem_append_left _ hmem
        · rw [Function.update_noteq hpp]
          exact hmem
    · intro c' hc'
      rw [appendChildSt_live] at hc'
      rw [hPAR c']
      by_cases hcc : c' = c
      · rw [if_pos hcc]
        subst hcc
        intro hbad
        exact hcp (Option.some.inj hbad).symm
      · rw [if_neg hcc]
        exact hC.2.2 c' hc'

/-- `insertBefore` of a detached live element before an existing child
preserves coherence. -/
theorem insert_preserves {s : St} {ch : Nat → List Nat} (hC : Coherent s ch)
    {p nw ex : Nat} (hnw : nw ∈ s.live) (hex : ex ∈ s.live) (hnp : nw ≠ p)
    (hdet : Detached s nw) (hpar : (s.nodes ex).parent = some p) :
    ∃ ch', Coherent (insertBeforeSt s p nw ex) ch' := by
  obtain ⟨hdp, hdn, hdv⟩ := hdet
  obtain ⟨hp, hexch⟩ := hC.2.1 ex hex p hpar
  have hpn : p ≠ nw := Ne.symm hnp
  have hep : ex ≠ p := fun h => hC.2.2 ex hex (h ▸ hpar)
  have hpe : p ≠ ex := Ne.symm hep
  have hne : nw ≠ ex := fun h => by
    rw [h, hpar] at hdp; cases hdp
  have hen : ex ≠ nw := Ne.symm hne
  obtain ⟨hfst, hlst, hseg⟩ := (hC.1 p hp).1
  have hndp := (hC.1 p hp).2.1
  have hsubp := (hC.1 p hp).2.2
  have hnwnot : ∀ r ∈ s.live, nw ∉ ch r := fun r hr => detached_not_mem_ch hC hdp hr
  have hpnot : p ∉ ch p := self_not_mem_ch hC hp
  obtain ⟨l₁, l₂, hdec⟩ := List.append_of_mem hexch
  rw [hdec] at hfst hlst hseg hndp
  have hnd1 : l₁.Nodup := (List.nodup_append.1 hndp).1
  have hnd2 : (ex :: l₂).Nodup := (List.nodup_append.1 hndp).2.1
  have hdisj : l₁.Disjoint (ex :: l₂) := (List.nodup_append.1 hndp).2.2
  have hexl1 : ex ∉ l₁ := fun h => hdisj h (by simp)
  have hsplit := (segOk_append_cons s.nodes p l₁ none none ex l₂).1 hseg
  have hseg1 := hsplit.1
  have hseg2 := hsplit.2
  have hprevex : (s.nodes ex).prevSibling = entryPrev none l₁ := by
    cases l₂ with
    | nil =>
      simp only [segOk, Bool.and_eq_true, beq_iff_eq] at hseg2
      exact hseg2.1.2
    | cons b t =>
      simp only [segOk, Bool.and_eq_true, beq_iff_eq] at hseg2
      exact hseg2.1.1.2
  use Function.update ch p (l₁ ++ nw :: ex :: l₂)
  rcases List.eq_nil_or_concat l₁ with hl1nil | ⟨l₁', a, hl1⟩
  · subst hl1nil
    rw [entryPrev_nil] at hprevex
    have hND := insertBeforeSt_nodes_head s p nw ex hpar hprevex hnp hne hep
    have hPAR : ∀ y, ((insertBeforeSt s p nw ex).nodes y).parent =
        if y = nw then some p else (s.nodes y).parent := by
      intro y
      rw [hND]
      by_cases hyn : y = nw
      · simp [hen, hpn, hpe, hyn]
      · by_cases hye : y = ex
        · simp [hen, hpn, hpe, hyn, hye, hpar, hen]
        · by_cases hyp' : y = p <;> simp [hen, hpn, hpe, hyn, hye, hyp', hpn, hpe]
    have hfstex : (s.nodes p).firstChild = some ex := by
      rw [hfst]; simp
    refine ⟨?_, ?_, ?_⟩
    · intro r hr
      rw [insertBeforeSt_live] at hr
      by_cases hrp : r = p
      · rw [hrp, Function.update_same]
        refine ⟨⟨?_, ?_, ?_⟩, ?_, ?_⟩
        · rw [hND]
          simp [hen, hpn, hpe, hpn, hpe, hfstex]
        · rw [hND]
          simp [hpn, hpe, hlst, List.getLast?_cons_cons]
        · simp only [List.nil_append, segOk, Bool.and_eq_true, beq_iff_eq]
          refine ⟨⟨⟨?_, ?_⟩, ?_⟩, ?_⟩
          · rw [hND]; simp
          · rw [hND]; simp
          · rw [hND]; simp
          · refine segOk_reenter s.nodes (insertBeforeSt s p nw ex).nodes p ex (some nw)
              ?_ (ex :: l₂) (entryPrev none ([] : List Nat)) none (by simp) hnd2 ?_ ?_ hseg2
            · rw [hND]; simp [hen, hpn, hpe, hen]
            · intro x hx
              have hxn : x ≠ nw := by
                intro h; subst h
                exact hnwnot p hp (by rw [hdec]; simpa using hx)
              rw [hND]
              by_cases hxe : x = ex
              · simp [hen, hpn, hpe, hxn, hxe]
              · by_cases hxp : x = p <;> simp [hen, hpn, hpe, hxn, hxe, hxp]
            · intro x hx hxe
              have hxn : x ≠ nw := by
                intro h; subst h
                exact hnwnot p hp (by rw [hdec]; simpa using hx)
              have hxp : x ≠ p := by
                intro h; subst h
                exact hpnot (by rw [hdec]; simpa using hx)
              rw [hND]
              simp [hen, hpn, hpe, hxn, hxe, hxp]
        · rw [List.nil_append, List.nodup_cons]
          refine ⟨?_, hnd2⟩
          intro h
          exact hnwnot p hp (by rw [hdec]; simpa using h)
        · intro x hx
          rw [insertBeforeSt_live]
          simp only [List.nil_append, List.mem_cons] at hx
          rcases hx with rfl | hx
          · exact hnw
          · exact hsubp x (by rw [hdec]; simpa using hx)
      · rw [Function.update_noteq hrp]
        obtain ⟨henc, hnd, hsub⟩ := hC.1 r hr
        have hframe : ∀ x ∈ ch r,
            ((insertBeforeSt s p nw ex).nodes x).parent = (s.nodes x).parent ∧
            ((insertBeforeSt s p nw ex).nodes x).nextSibling = (s.nodes x).nextSibling ∧
            ((insertBeforeSt s p nw ex).nodes x).prevSibling = (s.nodes x).prevSibling := by
          intro x hx
          have hxn : x ≠ nw := fun h => hnwnot r hr (h ▸ hx)
          have hxe : x ≠ ex := by
            intro h
            have h1 := mem_ch_parent hC hr hx
            rw [h, hpar] at h1
            exact hrp (Option.some.inj h1).symm
          rw [hND]
          by_cases hxp : x = p <;> simp [hen, hpn, hpe, hxn, hxe, hxp]
        refine ⟨?_, hnd, ?_⟩
        · refine encodes_frame ?_ ?_ hframe henc
          · rw [hND]
            by_cases hrn : r = nw
            · simp [hen, hpn, hpe, hrn]
            · by_cases hre : r = ex <;> simp [hen, hpn, hpe, hrn, hre, hrp]
          · rw [hND]
            by_cases hrn : r = nw
            · simp [hen, hpn, hpe, hrn]
            · by_cases hre : r = ex <;> simp [hen, hpn, hpe, hrn, hre, hrp]
        · intro x hx
          rw [insertBeforeSt_live]
          exact hsub x hx
    · intro c' hc' p' hpar'
      rw [insertBeforeSt_live] at hc'
      rw [hPAR c'] at hpar'
      rw [insertBeforeSt_live]
      by_cases hcc : c' = nw
      · rw [if_pos hcc] at hpar'
        have : p = p' := Option.some.inj hpar'
        subst this
        subst hcc
        refine ⟨hp, ?_⟩
        rw [Function.update_same]
        simp
      · rw [if_neg hcc] at hpar'
        obtain ⟨hpl, hmem⟩ := hC.2.1 c' hc' p' hpar'
        refine ⟨hpl, ?_⟩
        by_cases hpp : p' = p
        · subst hpp
          rw [Function.update_same]
          rw [hdec] at hmem
          simp only [List.nil_append] at hmem ⊢
          simp at hmem ⊢
          tauto
        · rw [Function.update_noteq hpp]
          exact hmem
    · intro c' hc'
      rw [insertBeforeSt_live] at hc'
      rw [hPAR c']
      by_cases hcc : c' = nw
      · rw [if_pos hcc]
        subst hcc
        intro hbad
        exact hnp (Option.some.inj hbad).symm
      · rw [if_neg hcc]
        exact hC.2.2 c' hc'
  · rw [List.concat_eq_append] at hl1
    subst hl1
    have hentry : entryPrev none (l₁' ++ [a]) = some a := by
      simp [entryPrev, List.getLast?_concat]
    rw [hentry] at hprevex
    have hamem : a ∈ l₁' ++ [a] := by simp
    have hamemch : a ∈ ch p := by rw [hdec]; exact List.mem_append_left _ hamem
    have hap : a ≠ p := fun h => hpnot (h ▸ hamemch)
    have hpa : p ≠ a := fun h => hpnot (h.symm ▸ hamemch)
    have hna : nw ≠ a := fun h => hnwnot p hp (h ▸ hamemch)
    have han : a ≠ nw := Ne.symm hna
    have hea : ex ≠ a := fun h => hexl1 (h ▸ hamem)
    have hae : a ≠ ex := Ne.symm hea
    have hND := insertBeforeSt_nodes_mid s p nw ex a hpar hprevex hnp hne hep hna hea hap
    have hPAR : ∀ y, ((insertBeforeSt s p nw ex).nodes y).parent =
        if y = nw then some p else (s.nodes y).parent := by
      intro y
      rw [hND]
      by_cases hyn : y = nw
      · simp [hen, hpn, hpe, han, hae, hap, hpa, hyn]
      · by_cases hye : y = ex
        · simp [hen, hpn, hpe, han, hae, hap, hpa, hyn, hye, hpar, hen]
        · by_cases hya : y = a
          · simp [hen, hpn, hpe, han, hae, hap, hpa, hyn, hye, hya, hap, han, hae]
          · by_cases hyp' : y = p <;> simp [hen, hpn, hpe, han, hae, hap, hpa, hyn, hye, hya, hyp', hpn, hpe, hpa]
    have hfstne : (s.nodes p).firstChild ≠ some ex := by
      rw [hfst]
      cases hx : l₁' ++ [a] with
      | nil => simp at hx
      | cons f t =>
        have hfmem : f ∈ l₁' ++ [a] := by rw [hx]; simp
        have hfe : f ≠ ex := fun h => hexl1 (h ▸ hfmem)
        simp [hen, hpn, hpe, han, hae, hap, hpa, hx, hfe]
    refine ⟨?_, ?_, ?_⟩
    · intro r hr
      rw [insertBeforeSt_live] at hr
      by_cases hrp : r = p
      · rw [hrp, Function.update_same]
        refine ⟨⟨?_, ?_, ?_⟩, ?_, ?_⟩
        · rw [hND]
          simp only [if_neg hpn, if_neg hpe, if_neg (Ne.symm hap), if_pos rfl]
          rw [if_neg hfstne, hfst]
          cases hx : l₁' ++ [a] with
          | nil => simp at hx
          | cons f t => simp [hen, hpn, hpe, han, hae, hap, hpa, hx]
        · rw [hND]
          simp [hpn, hpe, hpa, hlst, List.getLast?_append_cons, List.getLast?_cons_cons]
        · rw [segOk_append_cons]
          constructor
          · refine segOk_retarget s.nodes (insertBeforeSt s p nw ex).nodes p a (some nw)
              ?_ (l₁' ++ [a]) none (some ex) (List.getLast?_concat l₁') hnd1 ?_ ?_ hseg1
            · rw [hND]; simp [hen, hpn, hpe, han, hae, hap, hpa, han, hae, hap]
            · intro x hx
              have hxn : x ≠ nw := by
                intro h; subst h
                exact hnwnot p hp (by rw [hdec]; exact List.mem_append_left _ hx)
              have hxe : x ≠ ex := fun h => hexl1 (h ▸ hx)
              have hxp : x ≠ p := by
                intro h; subst h
                exact hpnot (by rw [hdec]; exact List.mem_append_left _ hx)
              rw [hND]
              by_cases hxa : x = a <;> simp [hen, hpn, hpe, han, hae, hap, hpa, hxn, hxe, hxp, hxa]
            · intro x hx hxa
              have hxn : x ≠ nw := by
                intro h; subst h
                exact hnwnot p hp (by rw [hdec]; exact List.mem_append_left _ hx)
              have hxe : x ≠ ex := fun h => hexl1 (h ▸ hx)
              have hxp : x ≠ p := by
                intro h; subst h
                exact hpnot (by rw [hdec]; exact List.mem_append_left _ hx)
              rw [hND]
              simp [hen, hpn, hpe, han, hae, hap, hpa, hxn, hxe, hxp, hxa]
          · rw [hentry]
            simp only [segOk, Bool.and_eq_true, beq_iff_eq]
            refine ⟨⟨⟨?_, ?_⟩, ?_⟩, ?_⟩
            · rw [hND]; simp
            · rw [hND]; simp
            · rw [hND]; simp
            · refine segOk_reenter s.nodes (insertBeforeSt s p nw ex).nodes p ex (some nw)
                ?_ (ex :: l₂) (entryPrev none (l₁' ++ [a])) none (by simp) hnd2 ?_ ?_ hseg2
              · rw [hND]; simp [hen, hpn, hpe, han, hae, hap, hpa, hen]
              · intro x hx
                have hxn : x ≠ nw := by
                  intro h; subst h
                  exact hnwnot p hp (by rw [hdec]; exact List.mem_append_right _ hx)
                have hxa : x ≠ a := by
                  intro h
                  subst h
                  exact hdisj hamem hx
                rw [hND]
                by_cases hxe : x = ex
                · simp [hen, hpn, hpe, han, hae, hap, hpa, hxn, hxe]
                · by_cases hxp : x = p <;> simp [hen, hpn, hpe, han, hae, hap, hpa, hxn, hxe, hxa, hxp]
              · intro x hx hxe
                have hxn : x ≠ nw := by
                  intro h; subst h
                  exact hnwnot p hp (by rw [hdec]; exact List.mem_append_right _ hx)
                have hxa : x ≠ a := by
                  intro h
                  subst h
                  exact hdisj hamem hx
                have hxp : x ≠ p := by
                  intro h; subst h
                  exact hpnot (by rw [hdec]; exact List.mem_append_right _ hx)
                rw [hND]
                simp [hen, hpn, hpe, han, hae, hap, hpa, hxn, hxe, hxa, hxp]
        · have hnwl1 : nw ∉ l₁' ++ [a] := fun h => hnwnot p hp (by rw [hdec]; exact List.mem_append_left _ h)
          have hnwl2 : nw ∉ ex :: l₂ := fun h => hnwnot p hp (by rw [hdec]; exact List.mem_append_right _ h)
          rw [List.nodup_append]
          refine ⟨hnd1, ?_, ?_⟩
          · rw [List.nodup_cons]
            refine ⟨hnwl2, hnd2⟩
          · intro x hx
            simp only [List.mem_cons]
            rintro (rfl | hx2)
            · exact hnwl1 hx
            · exact hdisj hx (List.mem_cons.2 hx2)
        · intro x hx
          rw [insertBeforeSt_live]
          rcases List.mem_append.1 hx with hx | hx
          · exact hsubp x (by rw [hdec]; exact List.mem_append_left _ hx)
          · rcases List.mem_cons.1 hx with rfl | hx
            · exact hnw
            · exact hsubp x (by rw [hdec]; exact List.mem_append_right _ hx)
      · rw [Function.update_noteq hrp]
        obtain ⟨henc, hnd, hsub⟩ := hC.1 r hr
        have hframe : ∀ x ∈ ch r,
            ((insertBeforeSt s p nw ex).nodes x).parent = (s.nodes x).parent ∧
            ((insertBeforeSt s p nw ex).nodes x).nextSibling = (s.nodes x).nextSibling ∧
            ((insertBeforeSt s p nw ex).nodes x).prevSibling = (s.nodes x).prevSibling := by
          intro x hx
          have hxn : x ≠ nw := fun h => hnwnot r hr (h ▸ hx)
          have hxe : x ≠ ex := by
            intro h
            have h1 := mem_ch_parent hC hr hx
            rw [h, hpar] at h1
            exact hrp (Option.some.inj h1).symm
          have hxa : x ≠ a := by
            intro h
            have h1 := mem_ch_parent hC hr hx
            have h2 := mem_ch_parent hC hp hamemch
            rw [h, h2] at h1
            exact hrp (Option.some.inj h1).symm
          rw [hND]
          by_cases hxp : x = p <;> simp [hen, hpn, hpe, han, hae, hap, hpa, hxn, hxe, hxa, hxp]
        refine ⟨?_, hnd, ?_⟩
        · refine encodes_frame ?_ ?_ hframe henc
          · rw [hND]
            by_cases hrn : r = nw
            · simp [hen, hpn, hpe, han, hae, hap, hpa, hrn]
            · by_cases hre : r = ex
              · simp [hen, hpn, hpe, han, hae, hap, hpa, hrn, hre]
              · by_cases hra : r = a <;> simp [hen, hpn, hpe, han, hae, hap, hpa, hrn, hre, hra, hrp]
          · rw [hND]
            by_cases hrn : r = nw
            · simp [hen, hpn, hpe, han, hae, hap, hpa, hrn]
            · by_cases hre : r = ex
              · simp [hen, hpn, hpe, han, hae, hap, hpa, hrn, hre]
              · by_cases hra : r = a <;> simp [hen, hpn, hpe, han, hae, hap, hpa, hrn, hre, hra, hrp]
        · intro x hx
          rw [insertBeforeSt_live]
          exact hsub x hx
    · intro c' hc' p' hpar'
      rw [insertBeforeSt_live] at hc'
      rw [hPAR c'] at hpar'
      rw [insertBeforeSt_live]
      by_cases hcc : c' = nw
      · rw [if_pos hcc] at hpar'
        have : p = p' := Option.some.inj hpar'
        subst this
        subst hcc
        refine ⟨hp, ?_⟩
        rw [Function.update_same]
        simp
      · rw [if_neg hcc] at hpar'
        obtain ⟨hpl, hmem⟩ := hC.2.1 c' hc' p' hpar'
        refine ⟨hpl, ?_⟩
        by_cases hpp : p' = p
        · subst hpp
          rw [Function.update_same]
          rw [hdec] at hmem
          simp only [List.mem_append, List.mem_cons] at hmem ⊢
          tauto
        · rw [Function.update_noteq hpp]
          exact hmem
    · intro c' hc'
      rw [insertBeforeSt_live] at hc'
      rw [hPAR c']
      by_cases hcc : c' = nw
      · rw [if_pos hcc]
        subst hcc
        intro hbad
        exact hnp (Option.some.inj hbad).symm
      · rw [if_neg hcc]
        exact hC.2.2 c' hc'

/-- Clauses 2 and 3 of coherence after an operation that removes exactly
the leaf `c` from the registry and changes no parent link. -/
theorem remove_clauses23 {s : St} {ch : Nat → List Nat} (hC : Coherent s ch)
    {c : Nat} (hchc : ch c = [])
    {s' : St} (hN : ∀ y, (s'.nodes y).parent = (s.nodes y).parent)
    (hL : s'.live = s.live.filter (fun y => y ≠ c))
    {ch' : Nat → List Nat}
    (hch : ∀ p', ∀ c', c' ∈ ch p' → c' ≠ c → c' ∈ ch' p') :
    (∀ c' ∈ s'.live, ∀ p', (s'.nodes c').parent = some p' → p' ∈ s'.live ∧ c' ∈ ch' p')
    ∧ (∀ c' ∈ s'.live, (s'.nodes c').parent ≠ some c') := by
  constructor
  · intro c' hc' p' hpar'
    rw [hL] at hc'
    rw [List.mem_filter] at hc'
    obtain ⟨hc'l, hc'c⟩ := hc'
    have hc'c : c' ≠ c := by simpa using hc'c
    rw [hN c'] at hpar'
    obtain ⟨hpl, hmem⟩ := hC.2.1 c' hc'l p' hpar'
    have hp'c : p' ≠ c := by
      intro h
      rw [h, hchc] at hmem
      cases hmem
    refine ⟨?_, hch p' c' hmem hc'c⟩
    rw [hL, List.mem_filter]
    exact ⟨hpl, by simpa using hp'c⟩
  · intro c' hc'
    rw [hL, List.mem_filter] at hc'
    rw [hN c']
    exact hC.2.2 c' hc'.1

/-- `removeChild` preserves the invariant: either it throws before any
mutation, or it unlinks a leaf child coherently. -/
theorem remove_preserves {s : St} {ch : Nat → List Nat} (hC : Coherent s ch)
    {p c : Nat} (hp : p ∈ s.live) (hc : c ∈ s.live) (fuel : Nat) :
    ∃ ch', Coherent (removeChildGo (fuel + 3) s p c).1 ch' := by
  by_cases hpar : (s.nodes c).parent = some p
  case neg =>
    rw [show fuel + 3 = (fuel + 2) + 1 from rfl,
      removeChildGo_not_child (fuel + 2) s p c hpar]
    exact ⟨ch, hC⟩
  case pos =>
    have hcp : c ≠ p := fun h => hC.2.2 c hc (h ▸ hpar)
    have hpc : p ≠ c := Ne.symm hcp
    have hmemc : c ∈ ch p := (hC.2.1 c hc p hpar).2
    obtain ⟨hfstc, hlstc, hsegc⟩ := (hC.1 c hc).1
    cases hQ : (s.nodes c).firstChild with
    | some q =>
      have hqch : q ∈ ch c := by
        rw [hQ] at hfstc
        exact List.mem_of_mem_head? (by rw [← hfstc]; rfl)
      have hqlive : q ∈ s.live := (hC.1 c hc).2.2 q hqch
      rw [removeChildGo_nonleaf fuel s p c q hpar hQ (hC.2.2 q hqlive)]
      exact ⟨ch, hC⟩
    | none =>
      have hchc : ch c = [] := by
        rw [hQ] at hfstc
        exact List.head?_eq_none_iff.1 hfstc.symm
      rw [show fuel + 3 = (fuel + 2) + 1 from rfl,
        removeChildGo_leaf (fuel + 2) s p c hpar hQ]
      obtain ⟨hfst, hlst, hseg⟩ := (hC.1 p hp).1
      have hndp := (hC.1 p hp).2.1
      have hsubp := (hC.1 p hp).2.2
      have hpnot : p ∉ ch p := self_not_mem_ch hC hp
      obtain ⟨l₁, l₂, hdec⟩ := List.append_of_mem hmemc
      rw [hdec] at hfst hlst hseg hndp
      have hnd1 : l₁.Nodup := (List.nodup_append.1 hndp).1
      have hnd2 : (c :: l₂).Nodup := (List.nodup_append.1 hndp).2.1
      have hdisj : l₁.Disjoint (c :: l₂) := (List.nodup_append.1 hndp).2.2
      have hcl1 : c ∉ l₁ := fun h => hdisj h (by simp)
      have hcl2 : c ∉ l₂ := (List.nodup_cons.1 hnd2).1
      have hnd2' : l₂.Nodup := (List.nodup_cons.1 hnd2).2
      have hsplit := (segOk_append_cons s.nodes p l₁ none none c l₂).1 hseg
      have hseg1 := hsplit.1
      have hseg2 := hsplit.2
      have hprevc : (s.nodes c).prevSibling = entryPrev none l₁ := by
        cases l₂ with
        | nil =>
          simp only [segOk, Bool.and_eq_true, beq_iff_eq] at hseg2
          exact hseg2.1.2
        | cons b t =>
          simp only [segOk, Bool.and_eq_true, beq_iff_eq] at hseg2
          exact hseg2.1.1.2
      have hnextc : (s.nodes c).nextSibling = l₂.head? := by
        cases l₂ with
        | nil =>
          simp only [segOk, Bool.and_eq_true, beq_iff_eq] at hseg2
          simpa using hseg2.2
        | cons b t =>
          simp only [segOk, Bool.and_eq_true, beq_iff_eq] at hseg2
          simpa using hseg2.1.2
      have hchmem : ∀ p', ∀ c', c' ∈ ch p' → c' ≠ c →
          c' ∈ Function.update ch p (l₁ ++ l₂) p' := by
        intro p' c' hmem hne
        by_cases hpp : p' = p
        · subst hpp
          rw [Function.update_same]
          rw [hdec] at hmem
          rcases List.mem_append.1 hmem with h | h
          · exact List.mem_append_left _ h
          · rcases List.mem_cons.1 h with rfl | h
            · exact absurd rfl hne
            · exact List.mem_append_right _ h
        · rw [Function.update_noteq hpp]
          exact hmem
      have hsubnew : ∀ x ∈ l₁ ++ l₂, x ∈ (s.live.filter (fun y => y ≠ c)) := by
        intro x hx
        have hxch : x ∈ ch p := by
          rw [hdec]
          rcases List.mem_append.1 hx with h | h
          · exact List.mem_append_left _ h
          · exact List.mem_append_right _ (List.mem_cons_of_mem c h)
        have hxc : x ≠ c := by
          intro h
          subst h
          rcases List.mem_append.1 hx with h | h
          · exact hcl1 h
          · exact hcl2 h
        rw [List.mem_filter]
        exact ⟨hsubp x hxch, by simpa using hxc⟩
      have hndnew : (l₁ ++ l₂).Nodup := by
        rw [List.nodup_append]
        exact ⟨hnd1, hnd2', fun x hx1 hx2 => hdisj hx1 (List.mem_cons_of_mem c hx2)⟩
      rcases List.eq_nil_or_concat l₁ with hl1nil | ⟨l₁', a, hl1⟩
      · subst hl1nil
        rw [entryPrev_nil] at hprevc
        simp only [List.nil_append] at hfst hlst hseg hdec hchmem hsubnew hndnew
        cases l₂ with
        | nil =>
          have hfstc' : (s.nodes p).firstChild = some c := by rw [hfst]; rfl
          have hlstc' : (s.nodes p).lastChild = some c := by rw [hlst]; rfl
          have hnextc' : (s.nodes c).nextSibling = none := by rw [hnextc]; rfl
          obtain ⟨hND, hLIVE⟩ := removeLeafSt_only s p c hpc hfstc' hlstc' hprevc hnextc'
          have hN : ∀ y, ((removeLeafSt s p c).nodes y).parent = (s.nodes y).parent := by
            intro y
            rw [hND]
            by_cases hy : y = p <;> simp [hy]
          refine ⟨Function.update ch p ([] ++ []), ?_,
            (remove_clauses23 hC hchc hN hLIVE hchmem).1,
            (remove_clauses23 hC hchc hN hLIVE hchmem).2⟩
          intro r hr
          rw [hLIVE, List.mem_filter] at hr
          obtain ⟨hrl, hrc⟩ := hr
          have hrc : r ≠ c := by simpa using hrc
          by_cases hrp : r = p
          · rw [hrp, Function.update_same]
            refine ⟨⟨?_, ?_, ?_⟩, by simp, ?_⟩
            · rw [hND]; simp
            · rw [hND]; simp
            · simp [segOk]
            · intro x hx
              cases hx
          · rw [Function.update_noteq hrp]
            obtain ⟨henc, hnd, hsub⟩ := hC.1 r hrl
            refine ⟨?_, hnd, ?_⟩
            · refine encodes_frame ?_ ?_ ?_ henc
              · rw [hND]; simp [hrp]
              · rw [hND]; simp [hrp]
              · intro x hx
                rw [hND]
                by_cases hxp : x = p <;> simp [hxp]
            · intro x hx
              rw [hLIVE, List.mem_filter]
              have hxc : x ≠ c := by
                intro h
                subst h
                have h1 := mem_ch_parent hC hrl hx
                rw [hpar] at h1
                exact hrp (Option.some.inj h1).symm
              exact ⟨hsub x hx, by simpa using hxc⟩
        | cons b t =>
          have hfstc' : (s.nodes p).firstChild = some c := by rw [hfst]; rfl
          have hnextc' : (s.nodes c).nextSibling = some b := by rw [hnextc]; rfl
          have hbch : b ∈ ch p := by rw [hdec]; simp
          have hbc : b ≠ c := by
            intro h
            subst h
            exact hcl2 (by simp)
          have hbp : b ≠ p := fun h => hpnot (h ▸ hbch)
          have hlstne : (s.nodes p).lastChild ≠ some c := by
            rw [hlst, List.getLast?_cons_cons]
            have hlb : (b :: t).getLast? = some ((b :: t).getLast (by simp)) :=
              List.getLast?_eq_getLast_of_ne_nil (by simp)
            rw [hlb]
            intro hbad
            have : (b :: t).getLast (by simp) ∈ b :: t := List.getLast_mem _
            rw [Option.some_inj.1 hbad] at this
            exact hcl2 this
          obtain ⟨hND, hLIVE⟩ := removeLeafSt_head s p c b hpc hbc hbp hfstc' hlstne hprevc hnextc'
          have hN : ∀ y, ((removeLeafSt s p c).nodes y).parent = (s.nodes y).parent := by
            intro y
            rw [hND]
            by_cases hy : y = p
            · simp [hbp, hbc, hy]
            · by_cases hyb : y = b <;> simp [hbp, hbc, hy, hyb]
          have hsegtail : segOk s.nodes p (some c) none (b :: t) = true := by
            simp only [segOk, Bool.and_eq_true, beq_iff_eq] at hseg
            exact hseg.2
          refine ⟨Function.update ch p ([] ++ b :: t), ?_,
            (remove_clauses23 hC hchc hN hLIVE hchmem).1,
            (remove_clauses23 hC hchc hN hLIVE hchmem).2⟩
          intro r hr
          rw [hLIVE, List.mem_filter] at hr
          obtain ⟨hrl, hrc⟩ := hr
          have hrc : r ≠ c := by simpa using hrc
          by_cases hrp : r = p
          · rw [hrp, Function.update_same]
            simp only [List.nil_append]
            refine ⟨⟨?_, ?_, ?_⟩, hnd2', ?_⟩
            · rw [hND]; simp
            · rw [hND]
              simp [hbp, hbc, hlst, List.getLast?_cons_cons]
            · refine segOk_reenter s.nodes (removeLeafSt s p c).nodes p b none
                ?_ (b :: t) (some c) none (by simp) hnd2' ?_ ?_ hsegtail
              · rw [hND]; simp [hbp, hbc, hbp]
              · intro x hx
                rw [hND]
                by_cases hxp : x = p
                · simp [hbp, hbc, hxp]
                · by_cases hxb : x = b <;> simp [hbp, hbc, hxp, hxb]
              · intro x hx hxb
                rw [hND]
                by_cases hxp : x = p <;> simp [hbp, hbc, hxp, hxb]
            · intro x hx
              rw [hLIVE]
              exact hsubnew x hx
          · rw [Function.update_noteq hrp]
            obtain ⟨henc, hnd, hsub⟩ := hC.1 r hrl
            refine ⟨?_, hnd, ?_⟩
            · refine encodes_frame ?_ ?_ ?_ henc
              · rw [hND]
                by_cases hrb : r = b <;> simp [hbp, hbc, hrp, hrb]
              · rw [hND]
                by_cases hrb : r = b <;> simp [hbp, hbc, hrp, hrb]
              · intro x hx
                have hxb : x ≠ b := by
                  intro h
                  subst h
                  have h1 := mem_ch_parent hC hrl hx
                  have h2 := mem_ch_parent hC hp hbch
                  rw [h2] at h1
                  exact hrp (Option.some.inj h1).symm
                rw [hND]
                by_cases hxp : x = p <;> simp [hbp, hbc, hxp, hxb]
            · intro x hx
              rw [hLIVE, List.mem_filter]
              have hxc : x ≠ c := by
                intro h
                subst h
                have h1 := mem_ch_parent hC hrl hx
                rw [hpar] at h1
                exact hrp (Option.some.inj h1).symm
              exact ⟨hsub x hx, by simpa using hxc⟩
      · rw [List.concat_eq_append] at hl1
        subst hl1
        have hentry : entryPrev none (l₁' ++ [a]) = some a := by
          simp [entryPrev, List.getLast?_concat]
        rw [hentry] at hprevc
        have hamem : a ∈ l₁' ++ [a] := by simp
        have hach : a ∈ ch p := by rw [hdec]; exact List.mem_append_left _ hamem
        have hac : a ≠ c := fun h => hcl1 (h ▸ hamem)
        have hap : a ≠ p := fun h => hpnot (h ▸ hach)
        have hfstne : (s.nodes p).firstChild ≠ some c := by
          rw [hfst]
          cases hx : l₁' ++ [a] with
          | nil => simp at hx
          | cons f t' =>
            have hfmem : f ∈ l₁' ++ [a] := by rw [hx]; simp
            have hfc : f ≠ c := fun h => hcl1 (h ▸ hfmem)
            simp [hap, hac, hx, hfc]
        cases l₂ with
        | nil =>
          have hlstc' : (s.nodes p).lastChild = some c := by
            rw [hlst, List.getLast?_append_cons]
            rfl
          have hnextc' : (s.nodes c).nextSibling = none := by rw [hnextc]; rfl
          obtain ⟨hND, hLIVE⟩ := removeLeafSt_last s p c a hpc hac hap hfstne hlstc' hprevc hnextc'
          have hN : ∀ y, ((removeLeafSt s p c).nodes y).parent = (s.nodes y).parent := by
            intro y
            rw [hND]
            by_cases hy : y = p
            · simp [hap, hac, hy]
            · by_cases hya : y = a <;> simp [hap, hac, hy, hya]
          refine ⟨Function.update ch p (l₁' ++ [a] ++ []), ?_,
            (remove_clauses23 hC hchc hN hLIVE hchmem).1,
            (remove_clauses23 hC hchc hN hLIVE hchmem).2⟩
          intro r hr
          rw [hLIVE, List.mem_filter] at hr
          obtain ⟨hrl, hrc⟩ := hr
          have hrc : r ≠ c := by simpa using hrc
          by_cases hrp : r = p
          · rw [hrp, Function.update_same]
            simp only [List.append_nil]
            refine ⟨⟨?_, ?_, ?_⟩, hnd1, ?_⟩
            · rw [hND]
              simp only [if_neg (Ne.symm hap), if_pos rfl]
              rw [hfst, List.head?_append_of_ne_nil _ (by simp)]
              simp
            · rw [hND]
              simp [hap, hac, List.getLast?_concat]
            · refine segOk_retarget s.nodes (removeLeafSt s p c).nodes p a none
                ?_ (l₁' ++ [a]) none (some c) (List.getLast?_concat l₁') hnd1 ?_ ?_ hseg1
              · rw [hND]; simp [hap, hac, hap]
              · intro x hx
                rw [hND]
                by_cases hxp : x = p
                · simp [hap, hac, hxp]
                · by_cases hxa : x = a <;> simp [hap, hac, hxp, hxa]
              · intro x hx hxa
                rw [hND]
                by_cases hxp : x = p <;> simp [hap, hac, hxp, hxa]
            · intro x hx
              rw [hLIVE]
              exact hsubnew x (by simpa using hx)
          · rw [Function.update_noteq hrp]
            obtain ⟨henc, hnd, hsub⟩ := hC.1 r hrl
            refine ⟨?_, hnd, ?_⟩
            · refine encodes_frame ?_ ?_ ?_ henc
              · rw [hND]
                by_cases hra : r = a <;> simp [hap, hac, hrp, hra]
              · rw [hND]
                by_cases hra : r = a <;> simp [hap, hac, hrp, hra]
              · intro x hx
                have hxa : x ≠ a := by
                  intro h
                  subst h
                  have h1 := mem_ch_parent hC hrl hx
                  have h2 := mem_ch_parent hC hp hach
                  rw [h2] at h1
                  exact hrp (Option.some.inj h1).symm
                rw [hND]
                by_cases hxp : x = p <;> simp [hap, hac, hxp, hxa]
            · intro x hx
              rw [hLIVE, List.mem_filter]
              have hxc : x ≠ c := by
                intro h
                subst h
                have h1 := mem_ch_parent hC hrl hx
                rw [hpar] at h1
                exact hrp (Option.some.inj h1).symm
              exact ⟨hsub x hx, by simpa using hxc⟩
        | cons b t =>
          have hnextc' : (s.nodes c).nextSibling = some b := by rw [hnextc]; rfl
          have hbch : b ∈ ch p := by rw [hdec]; simp
          have hbc : b ≠ c := by
            intro h
            subst h
            exact hcl2 (by simp)
          have hbp : b ≠ p := fun h => hpnot (h ▸ hbch)
          have hba : b ≠ a := by
            intro h
            subst h
            exact hdisj hamem (by simp)
          have hlstne : (s.nodes p).lastChild ≠ some c := by
            rw [hlst, List.getLast?_append_cons, List.getLast?_cons_cons]
            have hlb : (b :: t).getLast? = some ((b :: t).getLast (by simp)) :=
              List.getLast?_eq_getLast_of_ne_nil (by simp)
            rw [hlb]
            intro hbad
            have : (b :: t).getLast (by simp) ∈ b :: t := List.getLast_mem _
            rw [Option.some_inj.1 hbad] at this
            exact hcl2 this
          obtain ⟨hND, hLIVE⟩ :=
            removeLeafSt_mid s p c a b hpc hac hap hbc hbp hba hfstne hlstne hprevc hnextc'
          have hN : ∀ y, ((removeLeafSt s p c).nodes y).parent = (s.nodes y).parent := by
            intro y
            rw [hND]
            by_cases hy : y = p
            · simp [hap, hac, hbp, hbc, hba, hy]
            · by_cases hya : y = a
              · simp [hap, hac, hbp, hbc, hba, hy, hya]
              · by_cases hyb : y = b <;> simp [hap, hac, hbp, hbc, hba, hy, hya, hyb]
          have hsegtail : segOk s.nodes p (some c) none (b :: t) = true := by
            have := hseg2
            rw [hentry] at this
            simp only [segOk, Bool.and_eq_true, beq_iff_eq] at this
            exact this.2
          refine ⟨Function.update ch p (l₁' ++ [a] ++ b :: t), ?_,
            (remove_clauses23 hC hchc hN hLIVE hchmem).1,
            (remove_clauses23 hC hchc hN hLIVE hchmem).2⟩
          intro r hr
          rw [hLIVE, List.mem_filter] at hr
          obtain ⟨hrl, hrc⟩ := hr
          have hrc : r ≠ c := by simpa using hrc
          by_cases hrp : r = p
          · rw [hrp, Function.update_same]
            refine ⟨⟨?_, ?_, ?_⟩, ?_, ?_⟩
            · rw [hND]
              simp only [if_neg (Ne.symm hap), if_neg (Ne.symm hbp), if_pos rfl,
                eq_self_iff_true, if_true]
              rw [hfst, List.head?_append_of_ne_nil (l₁' ++ [a]) (by simp),
                List.head?_append_of_ne_nil (l₁' ++ [a]) (by simp)]
            · rw [hND]
              simp only [if_neg (Ne.symm hap), if_neg (Ne.symm hbp), if_pos rfl,
                eq_self_iff_true, if_true]
              rw [hlst, List.getLast?_append_cons, List.getLast?_cons_cons,
                List.getLast?_append_cons]
            · rw [segOk_append_cons]
              constructor
              · refine segOk_retarget s.nodes (removeLeafSt s p c).nodes p a (some b)
                  ?_ (l₁' ++ [a]) none (some c) (List.getLast?_concat l₁') hnd1 ?_ ?_ hseg1
                · rw [hND]; simp [hap, hac, hbp, hbc, hba, hap, hba.symm]
                · intro x hx
                  have hxb : x ≠ b := by
                    intro h
                    subst h
                    exact hdisj hx (by simp)
                  rw [hND]
                  by_cases hxp : x = p
                  · simp [hap, hac, hbp, hbc, hba, hxp]
                  · by_cases hxa : x = a <;> simp [hap, hac, hbp, hbc, hba, hxp, hxa, hxb]
                · intro x hx hxa
                  have hxb : x ≠ b := by
                    intro h
                    subst h
                    exact hdisj hx (by simp)
                  rw [hND]
                  by_cases hxp : x = p <;> simp [hap, hac, hbp, hbc, hba, hxp, hxa, hxb]
              · rw [hentry]
                refine segOk_reenter s.nodes (removeLeafSt s p c).nodes p b (some a)
                  ?_ (b :: t) (some c) none (by simp) hnd2' ?_ ?_ hsegtail
                · rw [hND]; simp [hap, hac, hbp, hbc, hba, hbp, hba]
                · intro x hx
                  have hxa : x ≠ a := by
                    intro h
                    subst h
                    exact hdisj hamem (List.mem_cons_of_mem c hx)
                  rw [hND]
                  by_cases hxp : x = p
                  · simp [hap, hac, hbp, hbc, hba, hxp]
                  · by_cases hxb : x = b <;> simp [hap, hac, hbp, hbc, hba, hxp, hxa, hxb]
                · intro x hx hxb
                  have hxa : x ≠ a := by
                    intro h
                    subst h
                    exact hdisj hamem (List.mem_cons_of_mem c hx)
                  rw [hND]
                  by_cases hxp : x = p <;> simp [hap, hac, hbp, hbc, hba, hxp, hxa, hxb]
            · exact hndnew
            · intro x hx
              rw [hLIVE]
              exact hsubnew x hx
          · rw [Function.update_noteq hrp]
            obtain ⟨henc, hnd, hsub⟩ := hC.1 r hrl
            refine ⟨?_, hnd, ?_⟩
            · refine encodes_frame ?_ ?_ ?_ henc
              · rw [hND]
                by_cases hra : r = a
                · simp [hap, hac, hbp, hbc, hba, hrp, hra]
                · by_cases hrb : r = b <;> simp [hap, hac, hbp, hbc, hba, hrp, hra, hrb]
              · rw [hND]
                by_cases hra : r = a
                · simp [hap, hac, hbp, hbc, hba, hrp, hra]
                · by_cases hrb : r = b <;> simp [hap, hac, hbp, hbc, hba, hrp, hra, hrb]
              · intro x hx
                have hxa : x ≠ a := by
                  intro h
                  subst h
                  have h1 := mem_ch_parent hC hrl hx
                  have h2 := mem_ch_parent hC hp hach
                  rw [h2] at h1
                  exact hrp (Option.some.inj h1).symm
                have hxb : x ≠ b := by
                  intro h
                  subst h
                  have h1 := mem_ch_parent hC hrl hx
                  have h2 := mem_ch_parent hC hp hbch
                  rw [h2] at h1
                  exact hrp (Option.some.inj h1).symm
                rw [hND]
                by_cases hxp : x = p <;> simp [hap, hac, hbp, hbc, hba, hxp, hxa, hxb]
            · intro x hx
              rw [hLIVE, List.mem_filter]
              have hxc : x ≠ c := by
                intro h
                subst h
                have h1 := mem_ch_parent hC hrl hx
                rw [hpar] at h1
                exact hrp (Option.some.inj h1).symm
              exact ⟨hsub x hx, by simpa using hxc⟩

/-! ### Operation sequences -/

/-- One structural mutation: `appendChild` of a detached element,
`insertBefore` of a detached element before an existing child (the
conditions under which the spec defines these operations on a tree), or
`removeChild` on any pair of live elements (its error paths mutate
nothing). -/
inductive Step : St → St → Prop
  | append (s : St) (p c : Nat) (hp : p ∈ s.live) (hc : c ∈ s.live) (hcp : c ≠ p)
      (hdet : Detached s c) : Step s (appendChildSt s p c)
  | insert (s : St) (p nw ex : Nat) (hnw : nw ∈ s.live) (hex : ex ∈ s.live)
      (hnp : nw ≠ p) (hdet : Detached s nw) (hpar : (s.nodes ex).parent = some p) :
      Step s (insertBeforeSt s p nw ex)
  | remove (s : St) (p c : Nat) (fuel : Nat) (hp : p ∈ s.live) (hc : c ∈ s.live) :
      Step s (removeChildGo (fuel + 3) s p c).1

theorem inv_step {s s' : St} (hI : Inv s) (hstep : Step s s') : Inv s' := by
  obtain ⟨ch, hC⟩ := hI
  cases hstep with
  | append p c hp hc hcp hdet => exact ⟨_, append_preserves hC hp hc hcp hdet⟩
  | insert p nw ex hnw hex hnp hdet hpar => exact insert_preserves hC hnw hex hnp hdet hpar
  | remove p c fuel hp hc => exact remove_preserves hC hp hc fuel

theorem inv_steps {s s' : St} (hI : Inv s) (h : Relation.ReflTransGen Step s s') :
    Inv s' := by
  induction h with
  | refl => exact hI
  | tail _ hstep ih => exact inv_step ih hstep

/-! ## Claim theorems -/

/-- A fresh state holding one default-initialised root element `1`. -/
def st1 : St := { nodes := fun _ => {}, live := [1], index := fun _ => none, nextId := 2 }

/-- A fresh state holding two detached elements `1` and `2`. -/
def stPair : St := { nodes := fun _ => {}, live := [1, 2], index := fun _ => none, nextId := 3 }

/-- Four live elements; `1 → 2 → 3` is a chain (`2` a child of `1`, `3` a
child of `2`) and `4` is detached. -/
def stTree : St :=
  appendChildSt (appendChildSt { nodes := fun _ => {}, live := [1, 2, 3, 4], index := fun _ => none, nextId := 5 } 1 2) 2 3

/-- Four live elements; `2` and `3` are the children of `1` in order and
`4` is detached. -/
def stAB : St :=
  appendChildSt (appendChildSt { nodes := fun _ => {}, live := [1, 2, 3, 4], index := fun _ => none, nextId := 5 } 1 2) 1 3

/-- C1: for every sequence of `appendChild`, `insertBefore` and
`removeChild` operations applied to a tree of elements, every live
element's child list stays doubly-linked consistent: some list `cs`
satisfies `Encodes` — walking `nextSibling` from `firstChild` visits `cs`
in order, ending at `lastChild` whose `nextSibling` is null; walking
`previousSibling` from `lastChild` yields exactly the reverse; and every
listed child's parent pointer is the node whose list it is on. -/
theorem tree_invariant_sequences (s₀ s : St) (h₀ : Inv s₀)
    (hs : Relation.ReflTransGen Step s₀ s) :
    ∀ p ∈ s.live, ∃ cs, Encodes s.nodes p cs := by
  obtain ⟨ch, hC⟩ := inv_steps h₀ hs
  exact fun p hp => ⟨ch p, (hC.1 p hp).1⟩

theorem tree_invariant_sequences_witness :
    ∃ cs, Encodes (appendChildSt stPair 1 2).nodes 1 cs := by
  have hInv : Inv stPair := by
    refine ⟨fun _ => [], ?_, ?_, ?_⟩
    · intro p hp
      exact ⟨⟨rfl, rfl, rfl⟩, List.nodup_nil, fun x hx => absurd hx (List.not_mem_nil x)⟩
    · intro c hc p hpar
      exact absurd hpar (by simp [stPair])
    · intro c hc
      simp [stPair]
  have h := tree_invariant_sequences stPair (appendChildSt stPair 1 2) hInv
    (Relation.ReflTransGen.single
      (Step.append stPair 1 2 (by decide) (by decide) (by decide) ⟨rfl, rfl, rfl⟩))
  exact h 1 (by decide)

/-- C2: contrary to the claim, destroying a child that has descendants
does not purge them and does not complete without error: `removeChild`'s
inner recursion `pItem->removeChild(*pItem)` always fails its own parent
guard, so removing `2` (which has child `3`) from its parent `1` throws
"Referenced element is not a child." and leaves the registry untouched;
and `replaceChild` purges only the replaced element itself, leaving its
descendant `3` in the registry. -/
theorem removeChild_descendants_not_purged :
    (removeChildGo 9 stTree 1 2).2 = some "Referenced element is not a child."
    ∧ (removeChildGo 9 stTree 1 2).1.live = [1, 2, 3, 4]
    ∧ 3 ∈ (replaceChildSt stTree 4 2).live
    ∧ 2 ∉ (replaceChildSt stTree 4 2).live := by decide

set_option maxRecDepth 100000 in
/-- C3: ingesting `"<div id=x><p>Hello</p></div>"` against the fresh root
`1` creates exactly one new child `2` of the root — a `div` carrying id
`"x"` (also present in the string index) — which itself has exactly one
child `3`, a `paragraph` (the factory target of tag `p`), whose content
payload is `["Hello"]`; the call returns the root. -/
theorem ingestMarkup_div_p_hello :
    (((ingestMarkup st1 {} 1 "<div id=x><p>Hello</p></div>").1.nodes 1).firstChild = some 2
      ∧ ((ingestMarkup st1 {} 1 "<div id=x><p>Hello</p></div>").1.nodes 1).lastChild = some 2
      ∧ ((ingestMarkup st1 {} 1 "<div id=x><p>Hello</p></div>").1.nodes 1).childCount = 1)
    ∧ ((ingestMarkup st1 {} 1 "<div id=x><p>Hello</p></div>").1.nodes 2).softName = "DIV"
    ∧ ((ingestMarkup st1 {} 1 "<div id=x><p>Hello</p></div>").1.nodes 2).indexBy = some "x"
    ∧ (ingestMarkup st1 {} 1 "<div id=x><p>Hello</p></div>").1.index "x" = some 2
    ∧ (((ingestMarkup st1 {} 1 "<div id=x><p>Hello</p></div>").1.nodes 2).firstChild = some 3
      ∧ ((ingestMarkup st1 {} 1 "<div id=x><p>Hello</p></div>").1.nodes 2).lastChild = some 3
      ∧ ((ingestMarkup st1 {} 1 "<div id=x><p>Hello</p></div>").1.nodes 2).childCount = 1)
    ∧ ((ingestMarkup st1 {} 1 "<div id=x><p>Hello</p></div>").1.nodes 3).softName = "PARAGRAPH"
    ∧ ((ingestMarkup st1 {} 1 "<div id=x><p>Hello</p></div>").1.nodes 3).dataList = ["Hello"]
    ∧ ((ingestMarkup st1 {} 1 "<div id=x><p>Hello</p></div>").1.nodes 3).parent = some 2
    ∧ ((ingestMarkup st1 {} 1 "<div id=x><p>Hello</p></div>").1.nodes 2).parent = some 1
    ∧ ((ingestMarkup st1 {} 1 "<div id=x><p>Hello</p></div>").1.nodes 3).nextSibling = none
    ∧ ((ingestMarkup st1 {} 1 "<div id=x><p>Hello</p></div>").1.nodes 2).nextSibling = none
    ∧ (ingestMarkup st1 {} 1 "<div id=x><p>Hello</p></div>").2.2 = some 1
    ∧ (ingestMarkup st1 {} 1 "<div id=x><p>Hello</p></div>").1.live = [1, 2, 3] := by decide


/-! ## The `updateIndexBy` case table -/

theorem updateIndexBy_case_same (s : St) (e : Nat) (k : String) (hk : k ≠ "")
    (h0 : (s.nodes e).indexBy = some k) : updateIndexBy s e k = s := by
  simp [updateIndexBy, h0, hk]

theorem updateIndexBy_case_add (s : St) (e : Nat) (k : String) (hk : k ≠ "")
    (h0 : (s.nodes e).indexBy = none) :
    updateIndexBy s e k = { s with index := indexInsert s.index k e } := by
  simp [updateIndexBy, h0, hk]

theorem updateIndexBy_case_remove (s : St) (e : Nat) (k : String) (hk : k ≠ "")
    (h0 : (s.nodes e).indexBy = some k) :
    updateIndexBy s e "" = eraseIndex s k := by
  simp [updateIndexBy, h0, hk]

theorem updateIndexBy_case_blank (s : St) (e : Nat)
    (h0 : (s.nodes e).indexBy = none) : updateIndexBy s e "" = s := by
  simp [updateIndexBy, h0]

theorem updateIndexBy_case_rename (s : St) (e : Nat) (ka kb : String) (v : Nat)
    (hka : ka ≠ "") (hkb : kb ≠ "") (hab : ka ≠ kb)
    (h0 : (s.nodes e).indexBy = some ka) (hv : s.index ka = some v) :
    updateIndexBy s e kb =
      { s with index := indexInsert (fun key => if key = ka then none else s.index key) kb v } := by
  simp [updateIndexBy, h0, hka, hkb, hab, hv]

theorem indexInsert_free (idx : String → Option Nat) (k : String) (v : Nat)
    (hfree : idx k = none) :
    indexInsert idx k v = fun key => if key = k then some v else idx key := by
  simp [indexInsert, hfree]

theorem setIndexByAttr_index (s : St) (e : Nat) (k : String) :
    (setIndexByAttr s e k).index = (updateIndexBy s e k).index := rfl

theorem setIndexByAttr_indexBy (s : St) (e : Nat) (k : String) :
    ((setIndexByAttr s e k).nodes e).indexBy = some k := by
  simp [setIndexByAttr, setp_same]

/-- C4 counterexample: the index is *not* last-writer-wins and an
element's stored non-empty id need not have any entry mapping it to that
element.  On two fresh elements, giving `1` the id `"x"` and then giving
`2` the same id leaves the index entry for `"x"` pointing at `1`
(`std::unordered_map::insert` does not overwrite), while `2`'s stored
attribute says `"x"`; renaming `2` from `"a"` to the occupied `"x"` even
drops `2` from the index entirely while its attribute still says `"x"`. -/
theorem updateIndexBy_collision_counterexample :
    ((setIndexByAttr (setIndexByAttr stPair 1 "x") 2 "x").nodes 2).indexBy = some "x"
    ∧ (setIndexByAttr (setIndexByAttr stPair 1 "x") 2 "x").index "x" = some 1
    ∧ ((setIndexByAttr (setIndexByAttr (setIndexByAttr stPair 1 "x") 2 "a") 2 "x").nodes 2).indexBy = some "x"
    ∧ (setIndexByAttr (setIndexByAttr (setIndexByAttr stPair 1 "x") 2 "a") 2 "x").index "x" = some 1
    ∧ (setIndexByAttr (setIndexByAttr (setIndexByAttr stPair 1 "x") 2 "a") 2 "x").index "a" = none
    ∧ hasElement (setIndexByAttr (setIndexByAttr (setIndexByAttr stPair 1 "x") 2 "a") 2 "x") "a" = false := by
  decide

/-- C4 (amended): in the absence of id collisions the five-case table
holds: on an element with no stored id and two fresh keys `ka ≠ kb`,
setting id `ka` indexes the element under `ka`, renaming to `kb` makes
`hasElement ka` false and `hasElement kb` true with the entry pointing at
the element, clearing the id then makes `hasElement kb` false; re-setting
the same key is a no-op, as is blank-to-blank. -/
theorem updateIndexBy_five_case_table (s : St) (e : Nat) (ka kb : String)
    (hka : ka ≠ "") (hkb : kb ≠ "") (hab : ka ≠ kb)
    (h0 : (s.nodes e).indexBy = none)
    (ha : s.index ka = none) (hb : s.index kb = none) :
    hasElement (setIndexByAttr s e ka) ka = true
    ∧ (setIndexByAttr s e ka).index ka = some e
    ∧ hasElement (setIndexByAttr (setIndexByAttr s e ka) e kb) ka = false
    ∧ hasElement (setIndexByAttr (setIndexByAttr s e ka) e kb) kb = true
    ∧ (setIndexByAttr (setIndexByAttr s e ka) e kb).index kb = some e
    ∧ hasElement (setIndexByAttr (setIndexByAttr (setIndexByAttr s e ka) e kb) e "") kb = false
    ∧ updateIndexBy (setIndexByAttr s e ka) e ka = setIndexByAttr s e ka
    ∧ updateIndexBy s e "" = s := by
  have hn1 : ((setIndexByAttr s e ka).nodes e).indexBy = some ka := setIndexByAttr_indexBy s e ka
  have hi1 : (setIndexByAttr s e ka).index = fun key => if key = ka then some e else s.index key := by
    rw [setIndexByAttr_index, updateIndexBy_case_add s e ka hka h0, indexInsert_free s.index ka e ha]
  have hn2 : ((setIndexByAttr (setIndexByAttr s e ka) e kb).nodes e).indexBy = some kb :=
    setIndexByAttr_indexBy (setIndexByAttr s e ka) e kb
  have hv1 : (setIndexByAttr s e ka).index ka = some e := by rw [hi1]; simp
  have hext : (fun key => if key = ka then none else (setIndexByAttr s e ka).index key) kb = none := by
    rw [hi1]; simp [Ne.symm hab, hb]
  have hi2 : (setIndexByAttr (setIndexByAttr s e ka) e kb).index =
      fun key => if key = kb then some e
                 else if key = ka then none else (setIndexByAttr s e ka).index key := by
    rw [setIndexByAttr_index,
      updateIndexBy_case_rename (setIndexByAttr s e ka) e ka kb e hka hkb hab hn1 hv1,
      indexInsert_free _ kb e hext]
  have hi3 : (setIndexByAttr (setIndexByAttr (setIndexByAttr s e ka) e kb) e "").index =
      fun key => if key = kb then none
                 else (setIndexByAttr (setIndexByAttr s e ka) e kb).index key := by
    rw [setIndexByAttr_index,
      updateIndexBy_case_remove (setIndexByAttr (setIndexByAttr s e ka) e kb) e kb hkb hn2]
    rfl
  refine ⟨?_, ?_, ?_, ?_, ?_, ?_, ?_, ?_⟩
  · simp [hasElement, hi1]
  · rw [hi1]; simp
  · simp [hasElement, hi2, hab, ha]
  · simp [hasElement, hi2]
  · rw [hi2]; simp
  · simp [hasElement, hi3]
  · exact updateIndexBy_case_same (setIndexByAttr s e ka) e ka hka hn1
  · exact updateIndexBy_case_blank s e h0

theorem updateIndexBy_five_case_table_witness :
    hasElement (setIndexByAttr stPair 1 "a") "a" = true
    ∧ (setIndexByAttr stPair 1 "a").index "a" = some 1
    ∧ hasElement (setIndexByAttr (setIndexByAttr stPair 1 "a") 1 "b") "a" = false
    ∧ hasElement (setIndexByAttr (setIndexByAttr stPair 1 "a") 1 "b") "b" = true
    ∧ (setIndexByAttr (setIndexByAttr stPair 1 "a") 1 "b").index "b" = some 1
    ∧ hasElement (setIndexByAttr (setIndexByAttr (setIndexByAttr stPair 1 "a") 1 "b") 1 "") "b" = false
    ∧ updateIndexBy (setIndexByAttr stPair 1 "a") 1 "a" = setIndexByAttr stPair 1 "a"
    ∧ updateIndexBy stPair 1 "" = stPair :=
  updateIndexBy_five_case_table stPair 1 "a" "b" (by decide) (by decide) (by decide)
    rfl rfl rfl


/-- C5: contrary to the claim, `insertAfter` does not link the new child
to the element that previously followed the insertion point: the line
`newChild.m_nextSibling = existingElement.m_previousSibling` copies the
*previous*-sibling.  Inserting detached `4` after `2` in the list `[2, 3]`
leaves `4.nextSibling = none` instead of `some 3` (the forward walk now
ends at `4` without reaching `3`, though `3.prevSibling` was retargeted
at `4`); inserting `4` after the last child `3` sets
`4.nextSibling = some 2` — a cycle — instead of `none`, while `lastChild`
does move to `4`. -/
theorem insertAfter_next_link_defect :
    ((insertAfterSt stAB 1 4 2).nodes 2).nextSibling = some 4
    ∧ ((insertAfterSt stAB 1 4 2).nodes 4).prevSibling = some 2
    ∧ (stAB.nodes 2).nextSibling = some 3
    ∧ ((insertAfterSt stAB 1 4 2).nodes 4).nextSibling = none
    ∧ ((insertAfterSt stAB 1 4 2).nodes 3).prevSibling = some 4
    ∧ ((insertAfterSt stAB 1 4 3).nodes 4).nextSibling = some 2
    ∧ ((insertAfterSt stAB 1 4 3).nodes 1).lastChild = some 4 := by
  decide

/-- C6: contrary to the claim, `removeListener` removes nothing:
`auto eventList = getEventVector(evtType)` binds a by-value copy, so the
erase runs on a local vector and the element keeps its listener list
unchanged — after `addListener t h; removeListener t h` the handler `h`
is still in the element's list for `t`. -/
theorem removeListener_removes_nothing (L : Listeners) (t : EvType) (a : Nat) :
    removeListener (addListener L t a) t a = addListener L t a
    ∧ a ∈ getEventVector (removeListener (addListener L t a) t a) t := by
  refine ⟨rfl, ?_⟩
  cases t <;> simp [removeListener, addListener, getEventVector]

/-- A state with two live elements where `1` is indexed under `"x"` and
`2` carries no `indexBy` attribute. -/
def stQ : St :=
  { nodes := setp (fun _ => {}) 1 { indexBy := some "x" }, live := [1, 2],
    index := fun key => if key = "x" then some 1 else none, nextId := 3 }

/-- A state whose single live element `1` is indexed under `"x"`. -/
def stQ1 : St :=
  { nodes := setp (fun _ => {}) 1 { indexBy := some "x" }, live := [1],
    index := fun key => if key = "x" then some 1 else none, nextId := 2 }

/-- C7 counterexample: a live element without an id attribute does not
merely fail to match — it makes the whole query throw.  On `stQ` (where
`2` has no `indexBy`), a non-wildcard query propagates the getter's
error; only the `"*"` wildcard path avoids the getter and succeeds. -/
theorem query_error_counterexample :
    queryPat stQ (fun pat v => pat = v) "x" = .error "getAttribute: attribute not found"
    ∧ queryPat stQ (fun pat v => pat = v) "*" = .ok [1, 2] :=
  ⟨rfl, rfl⟩

theorem queryGo_total (s : St) (rm : String → String → Bool) (pat : String) :
    ∀ l : List Nat, (∀ n ∈ l, ((s.nodes n).indexBy).isSome) →
      queryGo s rm pat l = .ok (l.filter (fun n => rm pat (((s.nodes n).indexBy).getD "")))
  | [], _ => rfl
  | n :: t, h => by
    obtain ⟨v, hv⟩ := Option.isSome_iff_exists.mp (h n (List.mem_cons_self n t))
    have ih := queryGo_total s rm pat t (fun m hm => h m (List.mem_cons_of_mem n hm))
    by_cases hrm : rm pat v <;>
      simp [queryGo, hv, ih, List.filter_cons, hrm]

/-- C7 (amended): `query "*"` returns every live element, and when every
live element carries an `indexBy` attribute a non-wildcard pattern
returns exactly the live elements whose id the matcher accepts; but the
claim's tolerance clause is dropped — the no-error guarantee needs the
hypothesis that no live element lacks the attribute. -/
theorem query_amended (s : St) (rm : String → String → Bool) (pat : String)
    (hids : ∀ n ∈ s.live, ((s.nodes n).indexBy).isSome) :
    queryPat s rm "*" = .ok s.live
    ∧ (pat ≠ "*" →
        queryPat s rm pat =
          .ok (s.live.filter (fun n => rm pat (((s.nodes n).indexBy).getD "")))) := by
  refine ⟨by simp [queryPat], fun hp => ?_⟩
  rw [queryPat, if_neg hp, queryGo_total s rm pat s.live hids]

theorem query_amended_witness :
    queryPat stQ1 (fun pat v => pat = v) "*" = .ok [1]
    ∧ queryPat stQ1 (fun pat v => pat = v) "x" = .ok [1] := by
  have h := query_amended stQ1 (fun pat v => pat = v) "x" (by decide)
  refine ⟨h.1, ?_⟩
  rw [h.2 (by decide)]
  rfl

/-- C8: contrary to the claim, the colour built from `"Cornflower Blue"`
is not `(0x64, 0x95, 0xED)`: normalisation and table lookup do find
`0x6495ED`, but the constructor's channel masks sit one byte too high for
a 24-bit entry, so the channels come out `(0, 0x64, 0x95)` — red reads
the absent top byte, green gets red's value, blue gets green's, and the
true blue byte `0xED` is dropped.  The unknown name `"notacolor"` does
yield black with full opacity (the zero word misaligns to zero again). -/
theorem colorNF_channel_misalignment :
    colorIndexFind "Cornflower Blue" = some 0x6495ED
    ∧ colorNFofName "Cornflower Blue" = (0, 0x64, 0x95, 1)
    ∧ colorNFofName "notacolor" = (0, 0, 0, 1) := by
  decide

/-- C9: contrary to the claim, an element-close token pops the stack
unconditionally — there is no underflow guard.  Ingesting the lone
closing tag `"</div>"` against target `1` pops the target itself off the
construction stack (which the claim says can never happen): the stack
ends empty and the returned element is `none`, the C++'s
`back()` on an empty vector being undefined behaviour. -/
theorem ingestMarkup_excess_close_pops_target :
    (ingestMarkup st1 {} 1 "</div>").2.1.elementStack = []
    ∧ (ingestMarkup st1 {} 1 "</div>").2.2 = none
    ∧ (ingestMarkup st1 {} 1 "</div>").1.live = [1] := by
  decide

/-- C10: the value `strToEnum` *computes* is indeed the table's mapping
of the normalised key — `" Block "` normalises to `"block"` and hits
`display::block` (code `1`), and so on across the five string-constructed
enumerations — but the C++ function stores this in a local `ret` and
falls off the end of a non-void function without returning it, so the
value the constructors actually receive is undefined. -/
theorem strToEnum_computed_value_table :
    strToEnumRet displayEnumMap "block" = some 1
    ∧ strToEnumRet displayEnumMap " Block " = some 1
    ∧ strToEnumRet displayEnumMap "inline" = some 0
    ∧ strToEnumRet displayEnumMap "none" = some 2
    ∧ strToEnumRet positionEnumMap "relative" = some 1
    ∧ strToEnumRet textAlignmentEnumMap "center" = some 1
    ∧ strToEnumRet borderStyleEnumMap "solid" = some 3
    ∧ strToEnumRet listStyleTypeEnumMap "decimal" = some 4
    ∧ strToEnumRet displayEnumMap "bogus" = none := by
  decide

end ViewManager
